import Mathlib

/-!
Verification of the natural-language specification of Kudu's `FsManager`
(`src/kudu/fs/fs_manager.cc`) against a shallow embedding of the code.

The embedding models the filesystem environment (`Env`) as deterministic
oracles for the underlying synchronous I/O primitives (which the spec lists
as external collaborators), and translates the control flow of
`FsManager::Init`, `FsManager::Open`, `FsManager::CreateInitialFileSystemLayout`
and the path-derivation / tablet-listing helpers from the source.
Mutating operations are recorded in an explicit action trace so that claims
about "no change to the filesystem" and about rollback execution can be stated.
-/

namespace KuduFs

/-- Error side of the source `Status` type: the status codes that appear in
`fs_manager.cc` (`Status::IOError`, `Status::Corruption`,
`Status::AlreadyPresent`, plus a pass-through constructor for errors
originating in the environment). A two-argument construction such as
`Status::AlreadyPresent(msg, ctx)` stores the single message `msg ++ ": " ++ ctx`. -/
inductive FsError where
  | ioError (msg : String)
  | corruption (msg : String)
  | alreadyPresent (msg : String)
  | notFound (msg : String)
  deriving Repr, DecidableEq

/-- `Status::CloneAndPrepend` (used via `RETURN_NOT_OK_PREPEND`): keeps the
status code and prepends contextual text to the message. -/
def FsError.prepend (p : String) : FsError → FsError
  | .ioError m => .ioError (p ++ ": " ++ m)
  | .corruption m => .corruption (p ++ ": " ++ m)
  | .alreadyPresent m => .alreadyPresent (p ++ ": " ++ m)
  | .notFound m => .notFound (p ++ ": " ++ m)

/-- Decidable equality of `Except` results, so that concrete outcomes can be
compared in witnesses. -/
instance {ε α : Type} [DecidableEq ε] [DecidableEq α] : DecidableEq (Except ε α) :=
  fun a b =>
    match a, b with
    | .error e₁, .error e₂ =>
      match decEq e₁ e₂ with
      | .isTrue h => .isTrue (h ▸ rfl)
      | .isFalse h => .isFalse (fun hc => h (Except.error.inj hc))
    | .error _, .ok _ => .isFalse (fun hc => Except.noConfusion hc)
    | .ok _, .error _ => .isFalse (fun hc => Except.noConfusion hc)
    | .ok a₁, .ok a₂ =>
      match decEq a₁ a₂ with
      | .isTrue h => .isTrue (h ▸ rfl)
      | .isFalse h => .isFalse (fun hc => h (Except.ok.inj hc))

/-! ### String helpers

These are small executable translations of the string utilities the source
uses (`gutil` string routines and POSIX path handling). They are written by
structural recursion on the character list so that concrete witnesses
evaluate inside the kernel. -/

/-- Emptiness test on the underlying character list. -/
def strIsEmpty (s : String) : Bool := s.data.isEmpty

/-- Test whether a string begins with a given character (the source writes
`root[0] != '/'` and `HasPrefixString(fname, ".")` for one-character needles). -/
def startsWithChar (c : Char) (s : String) : Bool :=
  match s.data with
  | [] => false
  | c' :: _ => c' = c

/-- Drop leading whitespace characters from a character list. -/
def dropLeadingWs : List Char → List Char
  | [] => []
  | c :: rest => if c.isWhitespace then dropLeadingWs rest else c :: rest

/-- Modelled from the spec: `StripWhiteSpace` (gutil, outside this file)
removes leading and trailing whitespace; the spec phrases the check as
"reject paths containing leading/trailing whitespace". -/
def stripWhiteSpace (s : String) : String :=
  String.mk ((dropLeadingWs (dropLeadingWs s.data.reverse).reverse))

/-- Substring containment on character lists, used for the
`fname.find(marker) != string::npos` checks of `IsValidTabletId`. -/
def listContains (needle hay : List Char) : Bool :=
  match hay with
  | [] => needle.isEmpty
  | _ :: rest => needle.isPrefixOf hay || listContains needle rest

/-- Substring containment on strings. -/
def containsSubstr (s sub : String) : Bool := listContains sub.data s.data

/-- Suffix test on strings (used only to state the concrete WAL-segment
file-name property). -/
def strEndsWith (s suff : String) : Bool := suff.data.isSuffixOf s.data

/-! ### Path helpers

`DirName`, `BaseName` and `JoinPathSegments` live in `kudu/util/path_util`
and `gutil`, outside the one source file of this repository. -/

/-- Split a character list at `'/'` separators (structurally recursive). -/
def splitComps : List Char → List (List Char)
  | [] => [[]]
  | c :: rest =>
    let r := splitComps rest
    if c = '/' then [] :: r
    else
      match r with
      | [] => [[c]]
      | h :: t => (c :: h) :: t

/-- Non-empty path components of a path string. -/
def pathComponents (p : String) : List String :=
  ((splitComps p.data).filter (fun c => ¬c.isEmpty)).map (fun c => String.mk c)

/-- Join a list of components with the root path separator. -/
def joinComps : List String → String
  | [] => ""
  | [x] => x
  | x :: rest => x ++ "/" ++ joinComps rest

/-- Modelled from the spec: POSIX `DirName` (kudu/util/path_util, outside this
file) — the parent of a path; the spec says canonicalization "resolves the
*parent* of the path (which must exist) and re-appends the original leaf name". -/
def dirName (p : String) : String :=
  let comps := (pathComponents p).dropLast
  if startsWithChar '/' p then
    if comps.isEmpty then "/" else "/" ++ joinComps comps
  else
    if comps.isEmpty then "." else joinComps comps

/-- Modelled from the spec: POSIX `BaseName` (kudu/util/path_util, outside
this file) — the leaf name of a path. -/
def baseName (p : String) : String :=
  match (pathComponents p).getLast? with
  | some b => b
  | none => if startsWithChar '/' p then "/" else ""

/-- Modelled from the spec: `JoinPathSegments` (kudu/util/path_util, outside
this file) joins a directory and a relative child (`R/child` in the on-disk
layout), without doubling the separator when the left side already ends in it. -/
def joinPathSegments (a b : String) : String :=
  if a.data.getLast? = some '/' then a ++ b else a ++ "/" ++ b

/-! ### Ordered-set model

`Init` stores the roots in `std::set<string>` / `std::map<string,string>`:
ordered containers holding each key once, iterated in ascending key order.
`setInsert` is ordered insertion into a sorted duplicate-free list. -/

/-- Strict character comparison by scalar value, the base of the
lexicographic string order of `std::set<string>`. -/
def charLtB (a b : Char) : Bool := a.toNat < b.toNat

/-- Lexicographic strict comparison of character lists. -/
def charListLtB : List Char → List Char → Bool
  | _, [] => false
  | [], _ :: _ => true
  | a :: as, b :: bs =>
    if charLtB a b then true
    else if charLtB b a then false
    else charListLtB as bs

/-- Lexicographic strict comparison of strings (the `std::string` order that
`std::set<string>` and `std::map<string, ...>` iterate by). -/
def strLtB (a b : String) : Bool := charListLtB a.data b.data

/-- Ordered insertion into a sorted duplicate-free list: the model of
`std::set<string>` insertion used by `FsManager::Init`. -/
def setInsert (x : String) : List String → List String
  | [] => [x]
  | y :: ys =>
    if strLtB x y then x :: y :: ys
    else if x = y then y :: ys
    else y :: setInsert x ys

/-- Fold a list into an ordered set, mirroring a loop of `std::set::insert`
calls over the list. -/
def setOfList (l : List String) : List String :=
  l.foldl (fun acc x => setInsert x acc) []

/-! ### Data model -/

/-- The persisted instance identity record (`InstanceMetadataPB`): a uuid and
a free-text format stamp. -/
structure InstanceMetadataPB where
  uuid : String
  formatStamp : String
  deriving Repr, DecidableEq

/-- Deterministic oracles for the external synchronous I/O collaborators of
`FsManager` (the `Env`, `pb_util`, `env_util`, `ObjectIdGenerator`,
`DataDirManager` and block-manager entry points the source calls). Each
oracle gives the outcome the environment would produce for the operation on
a given path; mutating operations are additionally recorded in an explicit
trace by the functions below. -/
structure Env where
  /-- `Env::Canonicalize` (read-only path resolution). -/
  canonicalize : String → Except FsError String
  /-- `Env::FileExists`. -/
  fileExists : String → Bool
  /-- `Env::GetChildren` / `FsManager::ListDir`. -/
  getChildren : String → Except FsError (List String)
  /-- `env_util::CreateDirIfMissing`; `Except.ok created` reports whether the
  directory was newly created. -/
  createDirIfMissing : String → Except FsError Bool
  /-- `pb_util::WritePBContainerToPath` with `NO_OVERWRITE` + `SYNC`, keyed by
  the instance-file path being written. -/
  writeInstanceFile : String → Except FsError Unit
  /-- `Env::SyncDir`. -/
  syncDir : String → Except FsError Unit
  /-- `DataDirManager::CreateNew` over the canonical data roots. -/
  createDataDirManager : Except FsError Unit
  /-- `DataDirManager::OpenExisting` over the canonical data roots. -/
  openDataDirManager : Except FsError Unit
  /-- `BlockManager::Open`. -/
  openBlockManager : Except FsError Unit
  /-- `pb_util::ReadPBContainerFromPath`, keyed by the instance-file path. -/
  readInstanceFile : String → Except FsError InstanceMetadataPB
  /-- Best-effort deletion performed by a rollback-ledger entry
  (`ScopedFileDeleter`); its result is logged and otherwise ignored. -/
  deleteEntry : String → Except FsError Unit
  /-- `ObjectIdGenerator::Next`. -/
  oidGenNext : String
  /-- `ObjectIdGenerator::Canonicalize` of a caller-supplied uuid. -/
  oidCanonicalize : String → Except FsError String
  /-- Wall-clock string used in the format stamp. -/
  timeStr : String
  /-- Hostname used in the format stamp. -/
  hostname : String

/-- In-memory state of an `FsManager` instance: construction parameters plus
the canonicalized root sets cached by `Init` (`canonicalized_wal_fs_root_`,
`canonicalized_metadata_fs_root_`, `canonicalized_data_fs_roots_`,
`canonicalized_all_fs_roots_`; the two set-valued fields are modelled as the
sorted duplicate-free iteration lists of the `std::set`s). -/
structure FsManagerState where
  readOnly : Bool
  walFsRoot : String
  dataFsRoots : List String
  initted : Bool
  canonWal : String
  canonMeta : String
  canonData : List String
  canonAll : List String
  deriving Repr, DecidableEq

/-- An `FsManager` as just constructed from options, before `Init` has run. -/
def mkFsManager (readOnly : Bool) (walPath : String) (dataPaths : List String) :
    FsManagerState :=
  { readOnly := readOnly
    walFsRoot := walPath
    dataFsRoots := dataPaths
    initted := false
    canonWal := ""
    canonMeta := ""
    canonData := []
    canonAll := [] }

/-! ### `FsManager::Init` (fs_manager.cc:169-241) -/

/-- Per-root validation performed inside `Init`'s canonicalization loop
(fs_manager.cc:191-205): empty string, relative path, and whitespace checks,
each failing with the corresponding `Status::IOError`. -/
def validateRoot (root : String) : Option FsError :=
  if strIsEmpty root then
    some (.ioError "Empty string provided for filesystem root")
  else if ¬startsWithChar '/' root then
    some (.ioError ("Relative path " ++ root ++ " provided for filesystem root"))
  else if stripWhiteSpace root ≠ root then
    some (.ioError ("Filesystem root " ++ root ++ " contains illegal whitespace"))
  else
    none

/-- The canonicalization loop of `Init` (fs_manager.cc:190-213): for each root
of the deduplicated sorted set, validate it, canonicalize its parent (which
must exist) and re-append the leaf, building the map
`original root → canonicalized root` in iteration order. -/
def canonicalizeRoots (env : Env) : List String → Except FsError (List (String × String))
  | [] => .ok []
  | root :: rest =>
    match validateRoot root with
    | some e => .error e
    | none =>
      match env.canonicalize (dirName root) with
      | .error e => .error e
      | .ok c =>
        match canonicalizeRoots env rest with
        | .error e => .error e
        | .ok m => .ok ((root, joinPathSegments c (baseName root)) :: m)

/-- `FindOrDie` on the root map (the looked-up key is always present). -/
def lookupCanon (m : List (String × String)) (k : String) : String :=
  (m.lookup k).getD ""

/-- `FsManager::Init` (fs_manager.cc:169-241): idempotent-no-op check, WAL
root presence check, deduplication of the roots into an ordered set,
validation + canonicalization of every root, and caching of the four
canonical root sets. `Init` performs no mutating filesystem operation; the
only environment primitive it consults is the read-only `canonicalize`. -/
def fsInit (env : Env) (s : FsManagerState) : Except FsError Unit × FsManagerState :=
  if s.initted then (.ok (), s)
  else if strIsEmpty s.walFsRoot then
    (.error (.ioError "Write-ahead log directory (fs_wal_dir) not provided"), s)
  else
    let allRoots := setOfList (s.walFsRoot :: s.dataFsRoots)
    match canonicalizeRoots env allRoots with
    | .error e => (.error e, s)
    | .ok rootMap =>
      let canonWal := lookupCanon rootMap s.walFsRoot
      let canonMeta :=
        match s.dataFsRoots with
        | [] => canonWal
        | d0 :: _ => lookupCanon rootMap d0
      let canonData :=
        match s.dataFsRoots with
        | [] => setInsert canonWal []
        | _ :: _ => s.dataFsRoots.foldl (fun acc d => setInsert (lookupCanon rootMap d) acc) []
      let canonAll := rootMap.foldl (fun acc e => setInsert e.2 acc) []
      (.ok (),
       { s with initted := true, canonWal := canonWal, canonMeta := canonMeta,
                canonData := canonData, canonAll := canonAll })

/-! ### Path derivation (fs_manager.cc:118-125, 455-515) -/

/-- `FsManager::kWalDirName` (fs_manager.cc:118). -/
def kWalDirName : String := "wals"

/-- The WAL file-name prefix constant `"wal"` of the source
(`FsManager::kWalFileNamePrefix`, fs_manager.cc:119). -/
def kWalFileNameStem : String := "wal"

/-- `FsManager::kWalsRecoveryDirSuffix` (fs_manager.cc:120). -/
def kWalsRecoveryDirSuffix : String := ".recovery"

/-- `FsManager::kTabletMetadataDirName` (fs_manager.cc:121). -/
def kTabletMetadataDirName : String := "tablet-meta"

/-- `FsManager::kInstanceMetadataFileName` (fs_manager.cc:124). -/
def kInstanceMetadataFileName : String := "instance"

/-- `FsManager::kConsensusMetadataDirName` (fs_manager.cc:125). -/
def kConsensusMetadataDirName : String := "consensus-meta"

/-- Modelled from the spec: the two recognized temporary-file markers
(`kTmpInfix` and `kOldTmpInfix`, declared in `kudu/util/env_util`, outside
this file); the spec says tablet-listing drops "entries containing either of
two recognized temporary-file markers". -/
def kTmpMarker : String := ".kudutmp"

/-- Modelled from the spec: the older of the two temporary-file markers. -/
def kOldTmpMarker : String := ".tmp"

/-- `FsManager::GetInstanceMetadataPath` (fs_manager.cc:499-501). -/
def getInstanceMetadataPath (root : String) : String :=
  joinPathSegments root kInstanceMetadataFileName

/-- Modelled from the spec: `FsManager::GetWalsRootDir` (declared in
`fs_manager.h`, outside this file) — the WAL root's `wals/` directory. -/
def getWalsRootDir (canonWal : String) : String :=
  joinPathSegments canonWal kWalDirName

/-- `FsManager::GetTabletMetadataDir` (fs_manager.cc:455-458): the metadata
root's `tablet-meta/` directory. -/
def getTabletMetadataDir (canonMeta : String) : String :=
  joinPathSegments canonMeta kTabletMetadataDirName

/-- Modelled from the spec: `FsManager::GetConsensusMetadataDir` (declared in
`fs_manager.h`, outside this file) — the metadata root's `consensus-meta/`
directory. -/
def getConsensusMetadataDir (canonMeta : String) : String :=
  joinPathSegments canonMeta kConsensusMetadataDirName

/-- `FsManager::GetTabletMetadataPath` (fs_manager.cc:460-462). -/
def getTabletMetadataPath (canonMeta tabletId : String) : String :=
  joinPathSegments (getTabletMetadataDir canonMeta) tabletId

/-- Modelled from the spec: `FsManager::GetTabletWalDir` (declared in
`fs_manager.h`, outside this file) — the per-tablet WAL directory
`R/wals/<tablet_id>`. -/
def getTabletWalDir (canonWal tabletId : String) : String :=
  joinPathSegments (getWalsRootDir canonWal) tabletId

/-- `FsManager::GetTabletWalRecoveryDir` (fs_manager.cc:503-507). -/
def getTabletWalRecoveryDir (canonWal tabletId : String) : String :=
  getTabletWalDir canonWal tabletId ++ kWalsRecoveryDirSuffix

/-- `StringPrintf("%09u64", n)`: the decimal rendering of `n` left-padded
with zeros to a minimum width of nine digits. -/
def zeroPad9 (n : Nat) : String :=
  String.mk (List.replicate (9 - (Nat.repr n).length) '0') ++ Nat.repr n

/-- `FsManager::GetWalSegmentFileName` (fs_manager.cc:509-515): the per-tablet
WAL directory joined with `wal-` followed by the zero-padded sequence number.
A pure function of the canonical WAL root and the identifiers. -/
def getWalSegmentFileName (canonWal tabletId : String) (sequenceNumber : Nat) : String :=
  joinPathSegments (getTabletWalDir canonWal tabletId)
    (kWalFileNameStem ++ "-" ++ zeroPad9 sequenceNumber)

/-! ### Tablet listing (fs_manager.cc:464-497) -/

/-- `IsValidTabletId` (fs_manager.cc:466-480): drop names containing either
temporary-file marker, and names beginning with the hidden-file marker `.`. -/
def isValidTabletId (fname : String) : Bool :=
  if containsSubstr fname kTmpMarker || containsSubstr fname kOldTmpMarker then
    false
  else if startsWithChar '.' fname then
    false
  else
    true

/-- The accumulation loop of `ListTabletIds` (fs_manager.cc:490-495). -/
def collectTabletIds : List String → List String
  | [] => []
  | child :: rest =>
    if isValidTabletId child then child :: collectTabletIds rest
    else collectTabletIds rest

/-- `FsManager::ListTabletIds` (fs_manager.cc:483-497): list the
tablet-metadata directory and keep the valid tablet ids, in enumeration
order. -/
def listTabletIds (env : Env) (canonMeta : String) : Except FsError (List String) :=
  let dir := getTabletMetadataDir canonMeta
  match env.getChildren dir with
  | .error e =>
    .error (e.prepend ("Couldn't list tablets in metadata directory " ++ dir))
  | .ok children => .ok (collectTabletIds children)

/-! ### `FsManager::Open` (fs_manager.cc:255-306) -/

/-- The identity-record loading loop of `Open` (fs_manager.cc:262-273): read
the instance record of every canonical root; the first record read becomes
`metadata_`, and any later record whose uuid differs fails with
`Status::Corruption` naming the two conflicting uuids. -/
def loadInstanceMetadata (env : Env) :
    List String → Option InstanceMetadataPB → Except FsError (Option InstanceMetadataPB)
  | [], m => .ok m
  | root :: rest, m =>
    match env.readInstanceFile (getInstanceMetadataPath root) with
    | .error e => .error e
    | .ok pb =>
      match m with
      | none => loadInstanceMetadata env rest (some pb)
      | some cur =>
        if pb.uuid ≠ cur.uuid then
          .error (.corruption ("Mismatched UUIDs across filesystem roots: " ++
            cur.uuid ++ " vs. " ++ pb.uuid))
        else
          loadInstanceMetadata env rest (some cur)

/-- `FsManager::Open` after a successful `Init`, over the canonical all-roots
set: load and verify the instance records, then open the data-directory
manager and the block manager. The intervening hygiene steps
(`CleanTmpFiles`, `CheckAndFixPermissions`) are best-effort (`WARN_NOT_OK`)
and contribute nothing to the returned status, so they do not appear in the
result. Returns the established identity record. -/
def fsOpen (env : Env) (canonAllRoots : List String) :
    Except FsError (Option InstanceMetadataPB) :=
  match loadInstanceMetadata env canonAllRoots none with
  | .error e => .error e
  | .ok m =>
    match env.openDataDirManager with
    | .error e => .error e
    | .ok _ =>
      match env.openBlockManager with
      | .error e => .error e
      | .ok _ => .ok m

/-! ### `FsManager::CreateInitialFileSystemLayout` (fs_manager.cc:308-389) -/

/-- Filesystem actions attempted by the mutating phase of
`CreateInitialFileSystemLayout`, recorded in chronological order. -/
inductive FsAction where
  | createDir (path : String)
  | writeInstanceFile (path : String)
  | syncDir (path : String)
  | createDataDirManager
  | deleteEntry (path : String)
  deriving Repr, DecidableEq

/-- Bookkeeping state threaded through the mutating phase:
the chronological action `trace`; the rollback deque `dequeFront`
(`delete_on_failure`, most recently pushed entry first, as entries are pushed
with `push_front`); `pushLog`, the same ledger in chronological push order;
and `toSync`, the deduplicated set of parent directories to synchronize
(`to_sync`, an `unordered_set` modelled as an insertion-ordered
duplicate-free list). -/
structure CreateSt where
  trace : List FsAction
  dequeFront : List String
  pushLog : List String
  toSync : List String
  deriving Repr, DecidableEq

/-- The empty bookkeeping state at the start of the mutating phase. -/
def CreateSt.initial : CreateSt := ⟨[], [], [], []⟩

/-- `delete_on_failure.push_front(new ScopedFileDeleter(env, path))`
(fs_manager.cc:342, 347-348, 360). -/
def pushDeleter (st : CreateSt) (p : String) : CreateSt :=
  { st with dequeFront := p :: st.dequeFront, pushLog := st.pushLog ++ [p] }

/-- `to_sync.insert(path)` (fs_manager.cc:343, 361): deduplicating insertion. -/
def insertToSync (st : CreateSt) (p : String) : CreateSt :=
  if p ∈ st.toSync then st else { st with toSync := st.toSync ++ [p] }

/-- Record an attempted mutating action in the trace. -/
def logAction (st : CreateSt) (a : FsAction) : CreateSt :=
  { st with trace := st.trace ++ [a] }

/-- The loop body of `IsDirectoryEmpty` (fs_manager.cc:430-438): a directory
is empty when every child is one of the two pseudo-entries. -/
def looksEmpty : List String → Bool
  | [] => true
  | c :: rest => if c = "." || c = ".." then looksEmpty rest else false

/-- `FsManager::IsDirectoryEmpty` (fs_manager.cc:427-440). -/
def isDirectoryEmpty (env : Env) (path : String) : Except FsError Bool :=
  match env.getChildren path with
  | .error e => .error e
  | .ok children => .ok (looksEmpty children)

/-- The guard phase of `CreateInitialFileSystemLayout` (fs_manager.cc:313-325):
every canonical root that exists must be empty, else the call fails with
`Status::AlreadyPresent`; non-existent roots pass. No mutating operation is
performed by this loop. -/
def checkRootsGuard (env : Env) : List String → Except FsError Unit
  | [] => .ok ()
  | root :: rest =>
    if env.fileExists root then
      match isDirectoryEmpty env root with
      | .error e => .error (e.prepend "Unable to check if FSManager root is empty")
      | .ok true => checkRootsGuard env rest
      | .ok false =>
        .error (.alreadyPresent ("FSManager root is not empty: " ++ root))
    else
      checkRootsGuard env rest

/-- `FsManager::CreateInstanceMetadata` (fs_manager.cc:391-410): generate a
fresh uuid or canonicalize the caller-supplied one, and build the format
stamp. -/
def createInstanceMetadata (env : Env) (uuid : Option String) :
    Except FsError InstanceMetadataPB :=
  let stamp := "Formatted at " ++ env.timeStr ++ " on " ++ env.hostname
  match uuid with
  | some u =>
    match env.oidCanonicalize u with
    | .error e => .error e
    | .ok c => .ok ⟨c, stamp⟩
  | none => .ok ⟨env.oidGenNext, stamp⟩

/-- The per-root step of the mutating phase (fs_manager.cc:337-349): create
the root directory if missing (pushing a rollback entry and recording its
parent for sync when newly created), then write the identity record (pushing
a rollback entry for the instance file after a successful write). -/
def createRootStep (env : Env) (root : String) (st : CreateSt) :
    Except FsError Unit × CreateSt :=
  let st := logAction st (.createDir root)
  match env.createDirIfMissing root with
  | .error e => (.error (e.prepend "Unable to create FSManager root"), st)
  | .ok created =>
    let st := if created then insertToSync (pushDeleter st root) (dirName root) else st
    let st := logAction st (.writeInstanceFile (getInstanceMetadataPath root))
    match env.writeInstanceFile (getInstanceMetadataPath root) with
    | .error e => (.error (e.prepend "Unable to write instance metadata"), st)
    | .ok _ => (.ok (), pushDeleter st (getInstanceMetadataPath root))

/-- The loop over canonical roots in the mutating phase (fs_manager.cc:337-349). -/
def createRootsLoop (env : Env) : List String → CreateSt → Except FsError Unit × CreateSt
  | [], st => (.ok (), st)
  | root :: rest, st =>
    match createRootStep env root st with
    | (.error e, st') => (.error e, st')
    | (.ok _, st') => createRootsLoop env rest st'

/-- The ancillary-directory step (fs_manager.cc:355-363): create the
directory if missing, pushing a rollback entry and recording its parent for
sync when newly created. -/
def ancillaryStep (env : Env) (dir : String) (st : CreateSt) :
    Except FsError Unit × CreateSt :=
  let st := logAction st (.createDir dir)
  match env.createDirIfMissing dir with
  | .error e => (.error (e.prepend ("Unable to create directory " ++ dir)), st)
  | .ok created =>
    (.ok (), if created then insertToSync (pushDeleter st dir) (dirName dir) else st)

/-- The loop over the three ancillary directories (fs_manager.cc:352-363). -/
def ancillaryLoop (env : Env) : List String → CreateSt → Except FsError Unit × CreateSt
  | [], st => (.ok (), st)
  | dir :: rest, st =>
    match ancillaryStep env dir st with
    | (.error e, st') => (.error e, st')
    | (.ok _, st') => ancillaryLoop env rest st'

/-- The parent-directory synchronization loop (fs_manager.cc:366-371), run
only when `FLAGS_enable_data_block_fsync` is set. -/
def syncLoop (env : Env) : List String → CreateSt → Except FsError Unit × CreateSt
  | [], st => (.ok (), st)
  | d :: rest, st =>
    let st := logAction st (.syncDir d)
    match env.syncDir d with
    | .error e => (.error (e.prepend ("Unable to synchronize directory " ++ d)), st)
    | .ok _ => syncLoop env rest st

/-- The body of `CreateInitialFileSystemLayout` after `Init` (fs_manager.cc:
313-382): guard phase, identity generation, root creation + identity-record
writes, ancillary directories, optional parent sync, and construction of the
data-directory manager. Errors surface with their `RETURN_NOT_OK_PREPEND`
context; the accumulated bookkeeping state is returned alongside. -/
def createBody (env : Env) (roots ancillary : List String) (uuid : Option String)
    (enableFsync : Bool) (st : CreateSt) : Except FsError Unit × CreateSt :=
  match checkRootsGuard env roots with
  | .error e => (.error e, st)
  | .ok _ =>
    match createInstanceMetadata env uuid with
    | .error e => (.error e, st)
    | .ok _ =>
      match createRootsLoop env roots st with
      | (.error e, st₁) => (.error e, st₁)
      | (.ok _, st₁) =>
        match ancillaryLoop env ancillary st₁ with
        | (.error e, st₂) => (.error e, st₂)
        | (.ok _, st₂) =>
          match (if enableFsync then syncLoop env st₂.toSync st₂ else (.ok (), st₂)) with
          | (.error e, st₃) => (.error e, st₃)
          | (.ok _, st₃) =>
            let st₄ := logAction st₃ .createDataDirManager
            match env.createDataDirManager with
            | .error e => (.error (e.prepend "Unable to create directory manager"), st₄)
            | .ok _ => (.ok (), st₄)

/-- Modelled from the spec: executing the rollback ledger (the
`ScopedFileDeleter` destructors run by `ElementDeleter` at scope exit, both
in `kudu/gutil` / `kudu/util/env_util`, outside this file). The deque is
traversed front to back — reverse-of-push order, as every entry was pushed
to the front — and each entry's deletion is attempted unconditionally; the
deletion's own result is logged and ignored, so a failing deletion can
affect neither the later deletions nor the returned status. -/
def rollbackActions (deq : List String) : List FsAction :=
  deq.map FsAction.deleteEntry

/-- Outcome of `CreateInitialFileSystemLayout`: the returned status, the
chronological trace of attempted mutating actions (rollback deletions
included), the rollback deletions attempted (in execution order), and the
rollback-ledger entries in chronological push order. -/
structure CreateResult where
  result : Except FsError Unit
  trace : List FsAction
  deletionsAttempted : List String
  pushLog : List String
  deriving Repr, DecidableEq

/-- The three ancillary directories (fs_manager.cc:352-354). -/
def ancillaryDirs (s : FsManagerState) : List String :=
  [getWalsRootDir s.canonWal, getTabletMetadataDir s.canonMeta,
   getConsensusMetadataDir s.canonMeta]

/-- `FsManager::CreateInitialFileSystemLayout` minus its leading read-only
assertion (fs_manager.cc:311-389): run `Init`, then the guarded mutating
phase; on failure execute every rollback-ledger entry (front to back through
the deque, i.e. reverse-of-push) and return the failing step's error; on
success cancel every ledger entry, so no deletion runs. -/
def createNonRO (env : Env) (s : FsManagerState) (uuid : Option String)
    (enableFsync : Bool) : CreateResult :=
  match fsInit env s with
  | (.error e, _) => { result := .error e, trace := [], deletionsAttempted := [], pushLog := [] }
  | (.ok _, s') =>
    match createBody env s'.canonAll (ancillaryDirs s') uuid enableFsync CreateSt.initial with
    | (.ok _, st) =>
      { result := .ok (), trace := st.trace, deletionsAttempted := [], pushLog := st.pushLog }
    | (.error e, st) =>
      { result := .error e
        trace := st.trace ++ rollbackActions st.dequeFront
        deletionsAttempted := st.dequeFront
        pushLog := st.pushLog }

/-- Possibly-fatal outcomes: a `CHECK` failure terminates the process instead
of returning a `Status`. -/
inductive FatalOr (α : Type) where
  | fatal (msg : String)
  | result (a : α)
  deriving Repr, DecidableEq

/-- `FsManager::CreateInitialFileSystemLayout` (fs_manager.cc:308-389)
including the fatal `CHECK(!read_only_)` assertion at its entry
(fs_manager.cc:309). -/
def createInitialFileSystemLayout (env : Env) (s : FsManagerState)
    (uuid : Option String) (enableFsync : Bool) : FatalOr CreateResult :=
  if s.readOnly then .fatal "Check failed: !read_only_"
  else .result (createNonRO env s uuid enableFsync)

/-! ### Block storage delegate (fs_manager.cc:577-596) -/

/-- The capability interface of the externally-owned block manager, as
consulted by the delegate methods. -/
structure BlockManager where
  createBlock : Except FsError Unit
  openBlock : String → Except FsError Unit
  deleteBlock : String → Except FsError Unit

/-- `FsManager::CreateNewBlock` (fs_manager.cc:577-581): fatal assertion that
the instance is not read-only, then delegation to the block manager. -/
def createNewBlock (s : FsManagerState) (bm : BlockManager) :
    FatalOr (Except FsError Unit) :=
  if s.readOnly then .fatal "Check failed: !read_only_"
  else .result bm.createBlock

/-- `FsManager::DeleteBlock` (fs_manager.cc:587-591): fatal assertion that
the instance is not read-only, then delegation to the block manager. -/
def deleteBlock (s : FsManagerState) (bm : BlockManager) (blockId : String) :
    FatalOr (Except FsError Unit) :=
  if s.readOnly then .fatal "Check failed: !read_only_"
  else .result (bm.deleteBlock blockId)

/-- `FsManager::OpenBlock` (fs_manager.cc:583-585): unconditional delegation. -/
def openBlock (bm : BlockManager) (blockId : String) : Except FsError Unit :=
  bm.openBlock blockId

/-! ### Specification-side definitions

Declarative restatements of the spec's wording, used to compare the embedded
code against the claims. -/

/-- The path-validation rules of the spec, stated in the claim's own words:
a raw root is rejected when it is the empty string, does not begin with the
root path separator `/`, or carries leading or trailing whitespace. -/
def violatesRootRules (root : String) : Prop :=
  root = "" ∨ startsWithChar '/' root = false ∨ stripWhiteSpace root ≠ root

/-- Decidability of the validation rules, so witnesses can discharge them. -/
instance (root : String) : Decidable (violatesRootRules root) := by
  unfold violatesRootRules
  infer_instance

/-- The uuid carried by the instance record the environment holds for a root
(meaningful when the read succeeds). -/
def uuidAt (env : Env) (root : String) : String :=
  match env.readInstanceFile (getInstanceMetadataPath root) with
  | .ok pb => pb.uuid
  | .error _ => ""

/-- The corruption message of `Open`'s uuid check (fs_manager.cc:269-271). -/
def mismatchMsg (u v : String) : String :=
  "Mismatched UUIDs across filesystem roots: " ++ u ++ " vs. " ++ v

/-- The uuid of the first root in the list whose record disagrees with the
canonical uuid `u₀`, if any. -/
def firstMismatch (env : Env) (u₀ : String) : List String → Option String
  | [] => none
  | r :: rest =>
    if uuidAt env r ≠ u₀ then some (uuidAt env r) else firstMismatch env u₀ rest

/-- The directories synchronized by a run, read off its action trace. -/
def syncedDirs (t : List FsAction) : List String :=
  t.filterMap (fun a => match a with | .syncDir p => some p | _ => none)

/-- The rollback deletions attempted by a run, read off its action trace. -/
def deletesIn (t : List FsAction) : List String :=
  t.filterMap (fun a => match a with | .deleteEntry p => some p | _ => none)

/-- Whether `CreateDirIfMissing` on this path would report a fresh creation. -/
def createdB (env : Env) (p : String) : Bool :=
  match env.createDirIfMissing p with
  | .ok true => true
  | _ => false

/-- Append-based deduplication, the declarative description of repeated
insertion into the `to_sync` set. -/
def dedupApp : List String → List String → List String
  | acc, [] => acc
  | acc, x :: xs => dedupApp (if x ∈ acc then acc else acc ++ [x]) xs

/-- The parent directories of the freshly created directories among `dirs`. -/
def createdParents (env : Env) (dirs : List String) : List String :=
  (dirs.filter (fun p => createdB env p)).map dirName

/-- An environment with its rollback-deletion oracle replaced, used to state
that deletion outcomes influence nothing else. -/
def Env.withDelete (e : Env) (d : String → Except FsError Unit) : Env :=
  { e with deleteEntry := d }

/-! ### Concrete environments and states for witnesses -/

/-- A benign environment: canonicalization is the identity, the three roots
`/w`, `/d1`, `/d2` pre-exist and are empty, every other directory is freshly
created, and all operations succeed. -/
def idEnv : Env :=
  { canonicalize := fun p => .ok p
    fileExists := fun _ => true
    getChildren := fun _ => .ok [".", ".."]
    createDirIfMissing := fun p => .ok (!(p = "/w" ∨ p = "/d1" ∨ p = "/d2" : Bool))
    writeInstanceFile := fun _ => .ok ()
    syncDir := fun _ => .ok ()
    createDataDirManager := .ok ()
    openDataDirManager := .ok ()
    openBlockManager := .ok ()
    readInstanceFile := fun _ => .ok ⟨"u", "s"⟩
    deleteEntry := fun _ => .ok ()
    oidGenNext := "generated-uuid"
    oidCanonicalize := fun u => .ok u
    timeStr := "t"
    hostname := "h" }

/-- An already-initialized manager whose lone canonical root is `/r`. -/
def openedState : FsManagerState :=
  { readOnly := false
    walFsRoot := "/r"
    dataFsRoots := []
    initted := true
    canonWal := "/r"
    canonMeta := "/r"
    canonData := ["/r"]
    canonAll := ["/r"] }

/-- The `openedState` manager configured read-only. -/
def roState : FsManagerState := { openedState with readOnly := true }

/-- An environment where the root `/r` exists and holds one stray file. -/
def envStray : Env :=
  { idEnv with
    fileExists := fun p => p = "/r"
    getChildren := fun _ => .ok [".", "..", "README"] }

/-- An environment where no directory exists yet and every identity-record
write fails with an I/O error. -/
def envWriteFail : Env :=
  { idEnv with
    fileExists := fun _ => false
    writeInstanceFile := fun _ => .error (.ioError "disk full") }

/-- An environment whose canonicalization always fails; consulting it at all
would change `Init`'s outcome. -/
def brokenCanonEnv : Env :=
  { idEnv with canonicalize := fun _ => .error (.ioError "canonicalize consulted") }

/-- An environment holding identity records with uuid `x` under `/a` and
uuid `y` everywhere else. -/
def envMismatch : Env :=
  { idEnv with
    readInstanceFile := fun p =>
      if p = "/a/instance" then .ok ⟨"x", "s"⟩ else .ok ⟨"y", "s"⟩ }

/-- An environment whose directory listing is the tablet-listing example. -/
def envTablets : Env :=
  { idEnv with getChildren := fun _ => .ok ["t1", ".hidden", "t2.tmp.abc", "t3"] }

/-- A block manager whose operations all succeed. -/
def constBM : BlockManager :=
  ⟨.ok (), fun _ => .ok (), fun _ => .ok ()⟩

/-! ## Order lemmas for the `std::set` model -/

theorem charLtB_irrefl (a : Char) : charLtB a a = false := by
  simp [charLtB]

theorem charLtB_asymm {a b : Char} (h : charLtB a b = true) : charLtB b a = false := by
  simp only [charLtB, decide_eq_true_eq] at h
  simp only [charLtB, decide_eq_false_iff_not]
  omega

theorem charLtB_conn {a b : Char} (h₁ : charLtB a b = false) (h₂ : charLtB b a = false) :
    a = b := by
  simp only [charLtB, decide_eq_false_iff_not] at h₁ h₂
  apply Char.eq_of_val_eq
  apply UInt32.eq_of_toBitVec_eq
  apply BitVec.eq_of_toNat_eq
  show Char.toNat a = Char.toNat b
  omega

theorem charLtB_trans {a b c : Char} (h₁ : charLtB a b = true) (h₂ : charLtB b c = true) :
    charLtB a c = true := by
  simp only [charLtB, decide_eq_true_eq] at h₁ h₂ ⊢
  omega

theorem charListLtB_irrefl (l : List Char) : charListLtB l l = false := by
  induction l with
  | nil => rfl
  | cons a as ih => simp [charListLtB, charLtB_irrefl, ih]

theorem charListLtB_asymm : ∀ {l₁ l₂ : List Char}, charListLtB l₁ l₂ = true →
    charListLtB l₂ l₁ = false := by
  intro l₁
  induction l₁ with
  | nil =>
    intro l₂ h
    cases l₂ with
    | nil => simp [charListLtB] at h
    | cons b bs => simp [charListLtB]
  | cons a as ih =>
    intro l₂ h
    cases l₂ with
    | nil => simp [charListLtB] at h
    | cons b bs =>
      simp only [charListLtB] at h ⊢
      cases hab : charLtB a b with
      | true => simp [charLtB_asymm hab, hab]
      | false =>
        rw [hab] at h
        cases hba : charLtB b a with
        | true => rw [hba] at h; simp at h
        | false =>
          rw [hba] at h
          simp only [if_neg, Bool.false_eq_true, ↓reduceIte] at h
          simp [hba, hab, ih h]

theorem charListLtB_conn : ∀ {l₁ l₂ : List Char}, charListLtB l₁ l₂ = false →
    charListLtB l₂ l₁ = false → l₁ = l₂ := by
  intro l₁
  induction l₁ with
  | nil =>
    intro l₂ h₁ _
    cases l₂ with
    | nil => rfl
    | cons b bs => simp [charListLtB] at h₁
  | cons a as ih =>
    intro l₂ h₁ h₂
    cases l₂ with
    | nil => simp [charListLtB] at h₂
    | cons b bs =>
      simp only [charListLtB] at h₁ h₂
      cases hab : charLtB a b with
      | true => rw [hab] at h₁; simp at h₁
      | false =>
        cases hba : charLtB b a with
        | true => rw [hba] at h₂; simp at h₂
        | false =>
          rw [hab, hba] at h₁
          rw [hba, hab] at h₂
          simp only [Bool.false_eq_true, ↓reduceIte] at h₁ h₂
          rw [charLtB_conn hab hba, ih h₁ h₂]

theorem charListLtB_trans : ∀ {l₁ l₂ l₃ : List Char}, charListLtB l₁ l₂ = true →
    charListLtB l₂ l₃ = true → charListLtB l₁ l₃ = true := by
  intro l₁
  induction l₁ with
  | nil =>
    intro l₂ l₃ h₁ h₂
    cases l₃ with
    | nil => cases l₂ <;> simp [charListLtB] at h₂
    | cons c cs => simp [charListLtB]
  | cons a as ih =>
    intro l₂ l₃ h₁ h₂
    cases l₂ with
    | nil => simp [charListLtB] at h₁
    | cons b bs =>
      cases l₃ with
      | nil => simp [charListLtB] at h₂
      | cons c cs =>
        simp only [charListLtB] at h₁ h₂ ⊢
        cases hab : charLtB a b with
        | true =>
          cases hbc : charLtB b c with
          | true => simp [charLtB_trans hab hbc]
          | false =>
            rw [hbc] at h₂
            cases hcb : charLtB c b with
            | true => rw [hcb] at h₂; simp at h₂
            | false => rw [charLtB_conn hbc hcb] at hab; simp [hab]
        | false =>
          rw [hab] at h₁
          cases hba : charLtB b a with
          | true => rw [hba] at h₁; simp at h₁
          | false =>
            rw [hba] at h₁
            simp only [Bool.false_eq_true, ↓reduceIte] at h₁
            have hAB := charLtB_conn hab hba
            subst hAB
            cases hbc : charLtB a c with
            | true => simp [hbc]
            | false =>
              rw [hbc] at h₂
              cases hcb : charLtB c a with
              | true => rw [hcb] at h₂; simp at h₂
              | false =>
                rw [hcb] at h₂
                simp only [Bool.false_eq_true, ↓reduceIte] at h₂
                simp [hbc, hcb, ih h₁ h₂]

theorem strLtB_irrefl (a : String) : strLtB a a = false :=
  charListLtB_irrefl a.data

theorem strLtB_asymm {a b : String} (h : strLtB a b = true) : strLtB b a = false :=
  charListLtB_asymm h

theorem strLtB_conn {a b : String} (h₁ : strLtB a b = false) (h₂ : strLtB b a = false) :
    a = b := by
  have hd : a.data = b.data := charListLtB_conn h₁ h₂
  cases a
  cases b
  exact congrArg String.mk hd

theorem strLtB_trans {a b c : String} (h₁ : strLtB a b = true) (h₂ : strLtB b c = true) :
    strLtB a c = true :=
  charListLtB_trans h₁ h₂

theorem strLtB_ne {a b : String} (h : strLtB a b = true) : a ≠ b := by
  intro he
  subst he
  rw [strLtB_irrefl] at h
  exact Bool.noConfusion h

theorem strLtB_of_not_of_ne {a b : String} (h : strLtB a b = false) (hne : a ≠ b) :
    strLtB b a = true := by
  cases hba : strLtB b a with
  | true => rfl
  | false => exact absurd (strLtB_conn h hba) hne

theorem setInsert_comm (x y : String) : ∀ l : List String,
    setInsert x (setInsert y l) = setInsert y (setInsert x l) := by
  intro l
  induction l with
  | nil =>
    by_cases hxy : x = y
    · subst hxy; rfl
    · cases hlt : strLtB x y with
      | true =>
        have hyx := strLtB_asymm hlt
        simp [setInsert, hlt, hyx, hxy, Ne.symm hxy]
      | false =>
        have hyx := strLtB_of_not_of_ne hlt hxy
        simp [setInsert, hlt, hyx, hxy, Ne.symm hxy]
  | cons z l ih =>
    by_cases hxz : x = z
    · subst hxz
      by_cases hyx : y = x
      · subst hyx; rfl
      · cases hlt : strLtB y x with
        | true =>
          have hxyF := strLtB_asymm hlt
          simp [setInsert, hlt, hxyF, hyx, Ne.symm hyx, strLtB_irrefl]
        | false =>
          have hxyT := strLtB_of_not_of_ne hlt hyx
          simp [setInsert, hlt, hxyT, hyx, Ne.symm hyx, strLtB_irrefl]
    · by_cases hyz : y = z
      · subst hyz
        cases hlt : strLtB x y with
        | true =>
          have hyxF := strLtB_asymm hlt
          simp [setInsert, hlt, hyxF, hxz, Ne.symm hxz, strLtB_irrefl]
        | false =>
          have hyxT := strLtB_of_not_of_ne hlt hxz
          simp [setInsert, hlt, hyxT, hxz, Ne.symm hxz, strLtB_irrefl]
      · cases hxzlt : strLtB x z with
        | true =>
          cases hyzlt : strLtB y z with
          | true =>
            by_cases hxy : x = y
            · subst hxy; rfl
            · cases hlt : strLtB x y with
              | true =>
                have hyx := strLtB_asymm hlt
                simp [setInsert, hxzlt, hyzlt, hlt, hyx, hxy, Ne.symm hxy]
              | false =>
                have hyx := strLtB_of_not_of_ne hlt hxy
                simp [setInsert, hxzlt, hyzlt, hlt, hyx, hxy, Ne.symm hxy]
          | false =>
            have hzy := strLtB_of_not_of_ne hyzlt hyz
            have hxy := strLtB_trans hxzlt hzy
            have hyx := strLtB_asymm hxy
            simp [setInsert, hxzlt, hyzlt, hyz, hxy, hyx, strLtB_ne hxy,
              Ne.symm (strLtB_ne hxy)]
        | false =>
          have hzx := strLtB_of_not_of_ne hxzlt hxz
          cases hyzlt : strLtB y z with
          | true =>
            have hyx := strLtB_trans hyzlt hzx
            have hxy := strLtB_asymm hyx
            simp [setInsert, hxzlt, hyzlt, hxz, hxy, hyx, strLtB_ne hyx,
              Ne.symm (strLtB_ne hyx)]
          | false =>
            simp [setInsert, hxzlt, hyzlt, hxz, hyz, ih]

theorem foldl_setInsert_perm {β : Type} (g : β → String) {l₁ l₂ : List β}
    (h : l₁.Perm l₂) : ∀ acc : List String,
    l₁.foldl (fun a x => setInsert (g x) a) acc =
      l₂.foldl (fun a x => setInsert (g x) a) acc := by
  induction h with
  | nil => intro acc; rfl
  | cons x _ ih => intro acc; exact ih _
  | swap x y l => intro acc; simp only [List.foldl_cons]; rw [setInsert_comm]
  | trans _ _ ih₁ ih₂ => intro acc; exact (ih₁ _).trans (ih₂ _)

theorem setOfList_perm {l₁ l₂ : List String} (h : l₁.Perm l₂) :
    setOfList l₁ = setOfList l₂ :=
  foldl_setInsert_perm (fun x => x) h []

theorem mem_setInsert {a x : String} : ∀ {l : List String},
    a ∈ setInsert x l ↔ a = x ∨ a ∈ l := by
  intro l
  induction l with
  | nil => simp [setInsert]
  | cons y ys ih =>
    cases hlt : strLtB x y with
    | true => simp [setInsert, hlt]
    | false =>
      by_cases hxy : x = y
      · subst hxy
        simp only [setInsert, hlt, Bool.false_eq_true, ↓reduceIte, if_pos rfl]
        simp
      · simp only [setInsert, hlt, Bool.false_eq_true, ↓reduceIte, if_neg hxy]
        simp [ih]
        tauto

theorem mem_foldl_setInsert {a : String} : ∀ (l acc : List String),
    a ∈ l.foldl (fun acc x => setInsert x acc) acc ↔ a ∈ acc ∨ a ∈ l := by
  intro l
  induction l with
  | nil => intro acc; simp
  | cons x xs ih =>
    intro acc
    simp only [List.foldl_cons]
    rw [ih]
    simp [mem_setInsert]
    tauto

theorem mem_setOfList {a : String} {l : List String} : a ∈ setOfList l ↔ a ∈ l := by
  unfold setOfList
  rw [mem_foldl_setInsert]
  simp

/-! ## Congruence lemmas: each operation consults only its own oracles -/

theorem canonicalizeRoots_congr {e₁ e₂ : Env} (h : e₁.canonicalize = e₂.canonicalize) :
    ∀ l, canonicalizeRoots e₁ l = canonicalizeRoots e₂ l := by
  intro l
  induction l with
  | nil => rfl
  | cons r rest ih => simp only [canonicalizeRoots, h, ih]

theorem fsInit_congr {e₁ e₂ : Env} (h : e₁.canonicalize = e₂.canonicalize)
    (s : FsManagerState) : fsInit e₁ s = fsInit e₂ s := by
  simp only [fsInit, canonicalizeRoots_congr h]

theorem checkRootsGuard_congr {e₁ e₂ : Env} (hfe : e₁.fileExists = e₂.fileExists)
    (hgc : e₁.getChildren = e₂.getChildren) :
    ∀ roots, checkRootsGuard e₁ roots = checkRootsGuard e₂ roots := by
  intro roots
  induction roots with
  | nil => rfl
  | cons r rest ih => simp only [checkRootsGuard, isDirectoryEmpty, hfe, hgc, ih]

theorem createInstanceMetadata_congr {e₁ e₂ : Env}
    (hoc : e₁.oidCanonicalize = e₂.oidCanonicalize) (hog : e₁.oidGenNext = e₂.oidGenNext)
    (ht : e₁.timeStr = e₂.timeStr) (hh : e₁.hostname = e₂.hostname) (uuid : Option String) :
    createInstanceMetadata e₁ uuid = createInstanceMetadata e₂ uuid := by
  cases uuid <;> simp only [createInstanceMetadata, hoc, hog, ht, hh]

theorem createRootStep_congr {e₁ e₂ : Env}
    (hcd : e₁.createDirIfMissing = e₂.createDirIfMissing)
    (hwi : e₁.writeInstanceFile = e₂.writeInstanceFile) (root : String) (st : CreateSt) :
    createRootStep e₁ root st = createRootStep e₂ root st := by
  simp only [createRootStep, hcd, hwi]

theorem createRootsLoop_congr {e₁ e₂ : Env}
    (hcd : e₁.createDirIfMissing = e₂.createDirIfMissing)
    (hwi : e₁.writeInstanceFile = e₂.writeInstanceFile) :
    ∀ roots st, createRootsLoop e₁ roots st = createRootsLoop e₂ roots st := by
  intro roots
  induction roots with
  | nil => intro st; rfl
  | cons r rest ih =>
    intro st
    simp only [createRootsLoop, createRootStep_congr hcd hwi, ih]

theorem ancillaryStep_congr {e₁ e₂ : Env}
    (hcd : e₁.createDirIfMissing = e₂.createDirIfMissing) (dir : String) (st : CreateSt) :
    ancillaryStep e₁ dir st = ancillaryStep e₂ dir st := by
  simp only [ancillaryStep, hcd]

theorem ancillaryLoop_congr {e₁ e₂ : Env}
    (hcd : e₁.createDirIfMissing = e₂.createDirIfMissing) :
    ∀ dirs st, ancillaryLoop e₁ dirs st = ancillaryLoop e₂ dirs st := by
  intro dirs
  induction dirs with
  | nil => intro st; rfl
  | cons d rest ih =>
    intro st
    simp only [ancillaryLoop, ancillaryStep_congr hcd, ih]

theorem syncLoop_congr {e₁ e₂ : Env} (hsd : e₁.syncDir = e₂.syncDir) :
    ∀ dirs st, syncLoop e₁ dirs st = syncLoop e₂ dirs st := by
  intro dirs
  induction dirs with
  | nil => intro st; rfl
  | cons d rest ih =>
    intro st
    simp only [syncLoop, hsd, ih]

theorem createBody_congr {e₁ e₂ : Env}
    (hfe : e₁.fileExists = e₂.fileExists) (hgc : e₁.getChildren = e₂.getChildren)
    (hcd : e₁.createDirIfMissing = e₂.createDirIfMissing)
    (hwi : e₁.writeInstanceFile = e₂.writeInstanceFile)
    (hsd : e₁.syncDir = e₂.syncDir)
    (hdm : e₁.createDataDirManager = e₂.createDataDirManager)
    (hoc : e₁.oidCanonicalize = e₂.oidCanonicalize) (hog : e₁.oidGenNext = e₂.oidGenNext)
    (ht : e₁.timeStr = e₂.timeStr) (hh : e₁.hostname = e₂.hostname)
    (roots ancillary : List String) (uuid : Option String) (enableFsync : Bool)
    (st : CreateSt) :
    createBody e₁ roots ancillary uuid enableFsync st =
      createBody e₂ roots ancillary uuid enableFsync st := by
  simp only [createBody, checkRootsGuard_congr hfe hgc,
    createInstanceMetadata_congr hoc hog ht hh, createRootsLoop_congr hcd hwi,
    ancillaryLoop_congr hcd, syncLoop_congr hsd, hdm]

theorem createNonRO_congr {e₁ e₂ : Env}
    (hca : e₁.canonicalize = e₂.canonicalize)
    (hfe : e₁.fileExists = e₂.fileExists) (hgc : e₁.getChildren = e₂.getChildren)
    (hcd : e₁.createDirIfMissing = e₂.createDirIfMissing)
    (hwi : e₁.writeInstanceFile = e₂.writeInstanceFile)
    (hsd : e₁.syncDir = e₂.syncDir)
    (hdm : e₁.createDataDirManager = e₂.createDataDirManager)
    (hoc : e₁.oidCanonicalize = e₂.oidCanonicalize) (hog : e₁.oidGenNext = e₂.oidGenNext)
    (ht : e₁.timeStr = e₂.timeStr) (hh : e₁.hostname = e₂.hostname)
    (s : FsManagerState) (uuid : Option String) (enableFsync : Bool) :
    createNonRO e₁ s uuid enableFsync = createNonRO e₂ s uuid enableFsync := by
  simp only [createNonRO, fsInit_congr hca,
    createBody_congr hfe hgc hcd hwi hsd hdm hoc hog ht hh]

/-! ## Structural lemmas about `Init` -/

theorem fsInit_initted {env : Env} {s : FsManagerState} (h : s.initted = true) :
    fsInit env s = (.ok (), s) := by
  simp [fsInit, h]

theorem fsInit_ok_initted {env : Env} {s s₁ : FsManagerState}
    (h : fsInit env s = (.ok (), s₁)) : s₁.initted = true := by
  unfold fsInit at h
  by_cases hi : s.initted = true
  · rw [if_pos hi] at h
    rw [Prod.mk.injEq] at h
    rw [← h.2]
    exact hi
  · rw [if_neg hi] at h
    by_cases he : strIsEmpty s.walFsRoot = true
    · rw [if_pos he] at h
      rw [Prod.mk.injEq] at h
      exact absurd h.1 (by simp)
    · rw [if_neg he] at h
      cases hm : canonicalizeRoots env (setOfList (s.walFsRoot :: s.dataFsRoots)) with
      | error e =>
        simp only [hm] at h
        rw [Prod.mk.injEq] at h
        exact absurd h.1 (by simp)
      | ok m =>
        simp only [hm] at h
        rw [Prod.mk.injEq] at h
        rw [← h.2]

/-- C6 — `Init` is idempotent: after a successful `Init`, a second call (even
against an environment whose canonicalization would behave differently, so no
validation or canonicalization work can have been consulted) returns success
and leaves the cached state — all four canonical root sets included —
exactly as the first call computed it. -/
theorem c6_init_idempotent (env env₂ : Env) (s s₁ : FsManagerState)
    (h : fsInit env s = (.ok (), s₁)) :
    fsInit env₂ s₁ = (.ok (), s₁) :=
  fsInit_initted (fsInit_ok_initted h)

/-- Witness for C6: a concrete first `Init`, then a second one against an
environment whose canonicalization always fails; the second is a no-op. -/
theorem c6_init_idempotent_witness :
    fsInit brokenCanonEnv (fsInit idEnv (mkFsManager false "/w" [])).2 =
      (.ok (), (fsInit idEnv (mkFsManager false "/w" [])).2) :=
  c6_init_idempotent idEnv brokenCanonEnv (mkFsManager false "/w" [])
    (fsInit idEnv (mkFsManager false "/w" [])).2 (by decide)

/-! ## Path validation (C4) -/

theorem validateRoot_some_of_violates {root : String} (h : violatesRootRules root) :
    ∃ e, validateRoot root = some e := by
  unfold validateRoot
  by_cases h₁ : strIsEmpty root = true
  · exact ⟨_, by rw [if_pos h₁]⟩
  · rw [if_neg h₁]
    by_cases h₂ : ¬startsWithChar '/' root = true
    · exact ⟨_, by rw [if_pos h₂]⟩
    · rw [if_neg h₂]
      by_cases h₃ : stripWhiteSpace root ≠ root
      · exact ⟨_, by rw [if_pos h₃]⟩
      · exfalso
        rcases h with hv | hv | hv
        · subst hv
          exact h₁ rfl
        · exact h₂ (by simp [hv])
        · exact h₃ hv

theorem validateRoot_ioError {root : String} {e : FsError}
    (h : validateRoot root = some e) : ∃ m, e = .ioError m := by
  unfold validateRoot at h
  by_cases h₁ : strIsEmpty root = true
  · rw [if_pos h₁] at h
    exact ⟨_, (Option.some.inj h).symm⟩
  · rw [if_neg h₁] at h
    by_cases h₂ : ¬startsWithChar '/' root = true
    · rw [if_pos h₂] at h
      exact ⟨_, (Option.some.inj h).symm⟩
    · rw [if_neg h₂] at h
      by_cases h₃ : stripWhiteSpace root ≠ root
      · rw [if_pos h₃] at h
        exact ⟨_, (Option.some.inj h).symm⟩
      · rw [if_neg h₃] at h
        exact absurd h (by simp)

theorem validateRoot_none_of_not_violates {root : String}
    (h : validateRoot root = none) : ¬violatesRootRules root := by
  intro hv
  obtain ⟨e, he⟩ := validateRoot_some_of_violates hv
  rw [h] at he
  exact Option.noConfusion he

theorem canonicalizeRoots_error_of_violation {env : Env}
    (hcanon : ∀ p, ∃ c, env.canonicalize p = .ok c) :
    ∀ {l : List String}, (∃ r ∈ l, violatesRootRules r) →
    ∃ m, canonicalizeRoots env l = .error (.ioError m) := by
  intro l
  induction l with
  | nil =>
    intro hex
    obtain ⟨r, hr, _⟩ := hex
    exact absurd hr (List.not_mem_nil r)
  | cons x rest ih =>
    intro hex
    obtain ⟨r, hr, hv⟩ := hex
    cases hval : validateRoot x with
    | some e =>
      obtain ⟨m, rfl⟩ := validateRoot_ioError hval
      exact ⟨m, by simp [canonicalizeRoots, hval]⟩
    | none =>
      have hrrest : r ∈ rest := by
        rcases List.mem_cons.mp hr with rfl | hmem
        · exact absurd hv (validateRoot_none_of_not_violates hval)
        · exact hmem
      obtain ⟨c, hc⟩ := hcanon (dirName x)
      obtain ⟨m, hm⟩ := ih ⟨r, hrrest, hv⟩
      exact ⟨m, by simp [canonicalizeRoots, hval, hc, hm]⟩

/-- C4 — for every raw root configuration containing a violating path (empty,
not beginning with the root separator, or carrying leading/trailing
whitespace), `Init` fails with a configuration error (an `IOError`), leaves
the manager state untouched, and its outcome depends on no environment
operation besides the read-only `canonicalize` (in particular `Init` performs
no mutating filesystem operation, as the embedding of `Init` consults no
mutating oracle at all). Stated for environments whose canonicalization of
well-formed roots succeeds, so the validation error itself is the failure
reported. -/
theorem c4_init_path_validation (env : Env) (s : FsManagerState)
    (hinit : s.initted = false)
    (hcanon : ∀ p, ∃ c, env.canonicalize p = .ok c)
    (hviol : ∃ r, (r = s.walFsRoot ∨ r ∈ s.dataFsRoots) ∧ violatesRootRules r) :
    (∃ m, (fsInit env s).1 = .error (.ioError m)) ∧
    (fsInit env s).2 = s ∧
    (∀ env₂, env₂.canonicalize = env.canonicalize → fsInit env₂ s = fsInit env s) := by
  have key : ∃ m, fsInit env s = (.error (.ioError m), s) := by
    unfold fsInit
    rw [if_neg (by simp [hinit])]
    by_cases he : strIsEmpty s.walFsRoot = true
    · rw [if_pos he]
      exact ⟨_, rfl⟩
    · rw [if_neg he]
      obtain ⟨r, hmem, hv⟩ := hviol
      have hr : r ∈ setOfList (s.walFsRoot :: s.dataFsRoots) := by
        rw [mem_setOfList]
        rcases hmem with rfl | hm
        · exact List.mem_cons_self _ _
        · exact List.mem_cons_of_mem _ hm
      obtain ⟨m, hm⟩ := canonicalizeRoots_error_of_violation hcanon ⟨r, hr, hv⟩
      refine ⟨m, ?_⟩
      simp only [hm]
  obtain ⟨m, hm⟩ := key
  exact ⟨⟨m, by rw [hm]⟩, by rw [hm], fun env₂ h => fsInit_congr h s⟩

/-- Witness for C4: the WAL root `relative/path` makes `Init` fail with a
configuration error and leaves the state untouched. -/
theorem c4_init_path_validation_witness :
    (∃ m, (fsInit idEnv (mkFsManager false "relative/path" [])).1 =
      .error (.ioError m)) ∧
    (fsInit idEnv (mkFsManager false "relative/path" [])).2 =
      mkFsManager false "relative/path" [] := by
  have h := c4_init_path_validation idEnv (mkFsManager false "relative/path" []) rfl
    (fun p => ⟨p, rfl⟩) ⟨"relative/path", Or.inl rfl, by decide⟩
  exact ⟨h.1, h.2.1⟩

/-! ## Canonicalization determinism (C5) -/

/-- C5 (amended) — for a fixed WAL path and two orderings of the same
multiset of raw data paths, `Init` returns the same status and computes the
same canonical WAL root, the same canonical data-root set, and the same
canonical all-roots set. (The canonical metadata root is excluded: it is the
canonicalization of the *first* supplied data path and so may differ between
orderings; see the counterexample.) -/
theorem c5_canonical_sets_order_independent (env : Env) (wal : String)
    (d₁ d₂ : List String) (h : d₁.Perm d₂) :
    (fsInit env (mkFsManager false wal d₁)).1 = (fsInit env (mkFsManager false wal d₂)).1 ∧
    (fsInit env (mkFsManager false wal d₁)).2.canonWal =
      (fsInit env (mkFsManager false wal d₂)).2.canonWal ∧
    (fsInit env (mkFsManager false wal d₁)).2.canonData =
      (fsInit env (mkFsManager false wal d₂)).2.canonData ∧
    (fsInit env (mkFsManager false wal d₁)).2.canonAll =
      (fsInit env (mkFsManager false wal d₂)).2.canonAll := by
  have hset : setOfList (wal :: d₁) = setOfList (wal :: d₂) := setOfList_perm (h.cons wal)
  by_cases hwal : strIsEmpty wal = true
  · simp [fsInit, mkFsManager, hwal]
  · cases hm : canonicalizeRoots env (setOfList (wal :: d₂)) with
    | error e =>
      have hm₁ : canonicalizeRoots env (setOfList (wal :: d₁)) = .error e := by
        rw [hset, hm]
      simp [fsInit, mkFsManager, hwal, hm, hm₁]
    | ok rootMap =>
      have hm₁ : canonicalizeRoots env (setOfList (wal :: d₁)) = .ok rootMap := by
        rw [hset, hm]
      cases hd₁ : d₁ with
      | nil =>
        have hd₂ : d₂ = [] := by
          rw [hd₁] at h
          exact (h.symm).eq_nil
        subst hd₂
        exact ⟨rfl, rfl, rfl, rfl⟩
      | cons x xs =>
        cases hd₂ : d₂ with
        | nil =>
          exfalso
          rw [hd₁, hd₂] at h
          exact List.noConfusion h.eq_nil
        | cons y ys =>
          have hfold :
              d₁.foldl (fun acc d => setInsert (lookupCanon rootMap d) acc) [] =
                d₂.foldl (fun acc d => setInsert (lookupCanon rootMap d) acc) [] :=
            foldl_setInsert_perm (lookupCanon rootMap) h []
          rw [hd₁] at hm₁
          rw [hd₂] at hm
          rw [hd₁, hd₂] at hfold
          simp only [List.foldl_cons] at hfold
          simp [fsInit, mkFsManager, hwal, hm, hm₁, hfold]

/-- Counterexample to C5 as stated: the canonical metadata root is *not*
order-independent — it is the canonicalization of the first supplied data
path, so supplying the same data paths in the two orders
`["/a", "/b"]` and `["/b", "/a"]` yields metadata roots `/a` and `/b`
respectively, refuting "identical canonical root sets — the same … metadata
root". -/
theorem c5_metadata_root_order_counterexample :
    List.Perm ["/a", "/b"] ["/b", "/a"] ∧
    (fsInit idEnv (mkFsManager false "/w" ["/a", "/b"])).1 = .ok () ∧
    (fsInit idEnv (mkFsManager false "/w" ["/b", "/a"])).1 = .ok () ∧
    (fsInit idEnv (mkFsManager false "/w" ["/a", "/b"])).2.canonMeta = "/a" ∧
    (fsInit idEnv (mkFsManager false "/w" ["/b", "/a"])).2.canonMeta = "/b" ∧
    "/a" ≠ "/b" :=
  ⟨List.Perm.swap "/b" "/a" [], by decide, by decide, by decide, by decide, by decide⟩

/-- Witness for C5 (amended): the two orderings above agree on the canonical
data-root set and the all-roots set. -/
theorem c5_canonical_sets_order_independent_witness :
    (fsInit idEnv (mkFsManager false "/w" ["/a", "/b"])).2.canonData =
      (fsInit idEnv (mkFsManager false "/w" ["/b", "/a"])).2.canonData ∧
    (fsInit idEnv (mkFsManager false "/w" ["/a", "/b"])).2.canonAll =
      (fsInit idEnv (mkFsManager false "/w" ["/b", "/a"])).2.canonAll := by
  have h := c5_canonical_sets_order_independent idEnv "/w" ["/a", "/b"] ["/b", "/a"]
    (List.Perm.swap "/b" "/a" [])
  exact ⟨h.2.2.1, h.2.2.2⟩

/-! ## Already-present guard (C3) -/

theorem looksEmpty_false_of_mem {c : String} : ∀ {cs : List String}, c ∈ cs →
    c ≠ "." → c ≠ ".." → looksEmpty cs = false := by
  intro cs
  induction cs with
  | nil => intro h _ _; exact absurd h (List.not_mem_nil c)
  | cons x rest ih =>
    intro hmem h₁ h₂
    rcases List.mem_cons.mp hmem with rfl | hm
    · simp [looksEmpty, h₁, h₂]
    · by_cases hx : x = "." ∨ x = ".."
      · have hstep : looksEmpty (x :: rest) = looksEmpty rest := by
          rcases hx with rfl | rfl <;> simp [looksEmpty]
        rw [hstep]
        exact ih hm h₁ h₂
      · push_neg at hx
        simp [looksEmpty, hx.1, hx.2]

theorem checkRootsGuard_ok_of_absent {env : Env} : ∀ roots : List String,
    (∀ x ∈ roots, env.fileExists x = false) → checkRootsGuard env roots = .ok () := by
  intro roots
  induction roots with
  | nil => intro _; rfl
  | cons x rest ih =>
    intro h
    have hx := h x (List.mem_cons_self _ _)
    simp only [checkRootsGuard, hx, Bool.false_eq_true, ↓reduceIte]
    exact ih (fun y hy => h y (List.mem_cons_of_mem _ hy))

theorem checkRootsGuard_alreadyPresent {env : Env} : ∀ {roots : List String},
    (∀ x ∈ roots, env.fileExists x = true → ∃ cs, env.getChildren x = .ok cs) →
    (∃ r ∈ roots, env.fileExists r = true ∧
      ∃ cs, env.getChildren r = .ok cs ∧ ∃ c ∈ cs, c ≠ "." ∧ c ≠ "..") →
    ∃ r₀ ∈ roots, checkRootsGuard env roots =
      .error (.alreadyPresent ("FSManager root is not empty: " ++ r₀)) := by
  intro roots
  induction roots with
  | nil =>
    intro _ hbad
    obtain ⟨r, hr, _⟩ := hbad
    exact absurd hr (List.not_mem_nil r)
  | cons x rest ih =>
    intro hchecks hbad
    by_cases hfe : env.fileExists x = true
    · obtain ⟨cs, hcs⟩ := hchecks x (List.mem_cons_self _ _) hfe
      cases hle : looksEmpty cs with
      | false =>
        refine ⟨x, List.mem_cons_self _ _, ?_⟩
        simp [checkRootsGuard, hfe, isDirectoryEmpty, hcs, hle]
      | true =>
        have hbadrest : ∃ r ∈ rest, env.fileExists r = true ∧
            ∃ cs, env.getChildren r = .ok cs ∧ ∃ c ∈ cs, c ≠ "." ∧ c ≠ ".." := by
          obtain ⟨r, hr, hfer, cs₂, hcs₂, c, hc, h₁, h₂⟩ := hbad
          rcases List.mem_cons.mp hr with rfl | hm
          · rw [hcs] at hcs₂
            obtain rfl := (Except.ok.inj hcs₂)
            have hne := looksEmpty_false_of_mem hc h₁ h₂
            rw [hle] at hne
            exact absurd hne (by simp)
          · exact ⟨r, hm, hfer, cs₂, hcs₂, c, hc, h₁, h₂⟩
        obtain ⟨r₀, hr₀, hg⟩ := ih (fun y hy => hchecks y (List.mem_cons_of_mem _ hy)) hbadrest
        refine ⟨r₀, List.mem_cons_of_mem _ hr₀, ?_⟩
        simp [checkRootsGuard, hfe, isDirectoryEmpty, hcs, hle, hg]
    · have hfeF : env.fileExists x = false := by
        cases h2 : env.fileExists x with
        | true => exact absurd h2 hfe
        | false => rfl
      have hbadrest : ∃ r ∈ rest, env.fileExists r = true ∧
          ∃ cs, env.getChildren r = .ok cs ∧ ∃ c ∈ cs, c ≠ "." ∧ c ≠ ".." := by
        obtain ⟨r, hr, hfer, cs₂, hcs₂, c, hc, h₁, h₂⟩ := hbad
        rcases List.mem_cons.mp hr with rfl | hm
        · rw [hfeF] at hfer
          exact absurd hfer (by simp)
        · exact ⟨r, hm, hfer, cs₂, hcs₂, c, hc, h₁, h₂⟩
      obtain ⟨r₀, hr₀, hg⟩ := ih (fun y hy => hchecks y (List.mem_cons_of_mem _ hy)) hbadrest
      refine ⟨r₀, List.mem_cons_of_mem _ hr₀, ?_⟩
      simp [checkRootsGuard, hfeF, hg]

theorem createNonRO_guard_error (uuid : Option String) (fsync : Bool)
    {env : Env} {s : FsManagerState} {e : FsError} (hi : s.initted = true)
    (hg : checkRootsGuard env s.canonAll = .error e) :
    createNonRO env s uuid fsync =
      { result := .error e, trace := [], deletionsAttempted := [], pushLog := [] } := by
  simp [createNonRO, fsInit_initted hi, createBody, hg, CreateSt.initial, rollbackActions]

/-- C3 — in the guard phase of `CreateInitialFileSystemLayout`, when some
canonical root exists on disk and holds an entry other than the two
pseudo-entries `.` and `..` (and the guard's own existence/listing checks
succeed), the call fails with an already-present error naming a root, and
performs no mutating filesystem action at all (empty action trace, no
rollback deletions); moreover the guard accepts any collection of
non-existent roots. -/
theorem c3_already_present_guard (env : Env) (s : FsManagerState) (uuid : Option String)
    (fsync : Bool) (hi : s.initted = true)
    (hchecks : ∀ x ∈ s.canonAll, env.fileExists x = true → ∃ cs, env.getChildren x = .ok cs)
    (hbad : ∃ r ∈ s.canonAll, env.fileExists r = true ∧
      ∃ cs, env.getChildren r = .ok cs ∧ ∃ c ∈ cs, c ≠ "." ∧ c ≠ "..") :
    (∃ r₀ ∈ s.canonAll, (createNonRO env s uuid fsync).result =
      .error (.alreadyPresent ("FSManager root is not empty: " ++ r₀))) ∧
    (createNonRO env s uuid fsync).trace = [] ∧
    (createNonRO env s uuid fsync).deletionsAttempted = [] ∧
    (∀ env₂ : Env, ∀ roots, (∀ x ∈ roots, env₂.fileExists x = false) →
      checkRootsGuard env₂ roots = .ok ()) := by
  obtain ⟨r₀, hr₀, hg⟩ := checkRootsGuard_alreadyPresent hchecks hbad
  have hc := createNonRO_guard_error uuid fsync hi hg
  refine ⟨⟨r₀, hr₀, ?_⟩, ?_, ?_, fun env₂ roots h => checkRootsGuard_ok_of_absent roots h⟩ <;>
    rw [hc]

/-- Witness for C3: a root `/r` containing the single stray file `README`
makes the call fail already-present with no filesystem change. -/
theorem c3_already_present_guard_witness :
    (createNonRO envStray openedState none true).result =
      .error (.alreadyPresent "FSManager root is not empty: /r") ∧
    (createNonRO envStray openedState none true).trace = [] ∧
    (createNonRO envStray openedState none true).deletionsAttempted = [] := by
  have h := c3_already_present_guard envStray openedState none true rfl
    (fun x _ _ => ⟨[".", "..", "README"], rfl⟩)
    ⟨"/r", by decide, by decide, [".", "..", "README"], rfl, "README", by decide, by decide,
      by decide⟩
  obtain ⟨⟨r₀, hr₀, hres⟩, htrace, hdel, _⟩ := h
  have hr : r₀ = "/r" := by simpa [openedState] using hr₀
  subst hr
  exact ⟨by simpa using hres, htrace, hdel⟩

/-! ## Tablet listing (C8) -/

theorem isValidTabletId_eq (c : String) :
    isValidTabletId c =
      (!containsSubstr c kTmpMarker && !containsSubstr c kOldTmpMarker &&
        !startsWithChar '.' c) := by
  cases hc₁ : containsSubstr c kTmpMarker <;>
    cases hc₂ : containsSubstr c kOldTmpMarker <;>
    cases hc₃ : startsWithChar '.' c <;>
    simp [isValidTabletId, hc₁, hc₂, hc₃]

theorem collectTabletIds_eq_filter : ∀ l : List String,
    collectTabletIds l = l.filter isValidTabletId := by
  intro l
  induction l with
  | nil => rfl
  | cons c rest ih =>
    by_cases hv : isValidTabletId c = true
    · simp [collectTabletIds, hv, List.filter_cons, ih]
    · simp [collectTabletIds, hv, List.filter_cons, ih]

/-- C8 — tablet listing returns exactly the enumerated entries that contain
neither temporary-file marker and do not begin with the hidden-file marker
`.`, in enumeration order (`filter` preserves the order of `children`). -/
theorem c8_tablet_listing (env : Env) (canonMeta : String) (children : List String)
    (h : env.getChildren (getTabletMetadataDir canonMeta) = .ok children) :
    listTabletIds env canonMeta =
      .ok (children.filter (fun c =>
        !containsSubstr c kTmpMarker && !containsSubstr c kOldTmpMarker &&
          !startsWithChar '.' c)) := by
  simp only [listTabletIds, h]
  rw [collectTabletIds_eq_filter, List.filter_congr (fun c _ => isValidTabletId_eq c)]

/-- Witness for C8: the directory `{t1, .hidden, t2.tmp.abc, t3}` lists
exactly `[t1, t3]`. -/
theorem c8_tablet_listing_witness :
    listTabletIds envTablets "/r" = .ok ["t1", "t3"] := by
  have h := c8_tablet_listing envTablets "/r" ["t1", ".hidden", "t2.tmp.abc", "t3"] rfl
  rw [h]
  decide

/-! ## WAL segment file name (C9) -/

/-- C9 — the derived WAL segment file name is the per-tablet WAL directory
joined with the WAL file-name prefix, a hyphen, and the sequence number
zero-padded to (a minimum of) nine decimal digits; the derivation is a pure
function (`getWalSegmentFileName` is defined with no filesystem oracle).
In particular sequence 42 renders as `000000042` and the path for tablet
`abc` ends in `wal-000000042`. -/
theorem c9_wal_segment_name (root tablet : String) (seq : Nat) :
    getWalSegmentFileName root tablet seq =
      joinPathSegments (getTabletWalDir root tablet)
        (kWalFileNameStem ++ "-" ++ zeroPad9 seq) ∧
    (zeroPad9 seq).length = max 9 (Nat.repr seq).length ∧
    ((Nat.repr seq).length ≤ 9 → (zeroPad9 seq).length = 9) ∧
    zeroPad9 42 = "000000042" ∧
    strEndsWith (getWalSegmentFileName "/w" "abc" 42) "wal-000000042" = true := by
  have hlen : (zeroPad9 seq).length = max 9 (Nat.repr seq).length := by
    unfold zeroPad9
    rcases hr : Nat.repr seq with ⟨cs⟩
    show (List.replicate (9 - cs.length) '0' ++ cs).length = max 9 cs.length
    simp only [List.length_append, List.length_replicate]
    omega
  exact ⟨rfl, hlen, fun h => by rw [hlen]; omega, by decide, by decide⟩

/-- Witness for C9 at tablet `abc`, sequence 42. -/
theorem c9_wal_segment_name_witness :
    (zeroPad9 42).length = 9 ∧
    strEndsWith (getWalSegmentFileName "/w" "abc" 42) "wal-000000042" = true :=
  ⟨(c9_wal_segment_name "/w" "abc" 42).2.2.1 (by decide),
   (c9_wal_segment_name "/w" "abc" 42).2.2.2.2⟩

/-! ## Read-only assertions (C10) -/

/-- C10 — on a read-only instance, the mutating delegate operations
create-block and delete-block, and `CreateInitialFileSystemLayout`, all fail
the fatal `CHECK(!read_only_)` assertion (a process-terminating outcome, not
a returned status); the check fires before any delegation, so the outcome is
independent of the block manager supplied. -/
theorem c10_read_only_fatal (s : FsManagerState) (hro : s.readOnly = true) (env : Env)
    (bm bm₂ : BlockManager) (blockId : String) (uuid : Option String) (fsync : Bool) :
    createNewBlock s bm = .fatal "Check failed: !read_only_" ∧
    deleteBlock s bm blockId = .fatal "Check failed: !read_only_" ∧
    createInitialFileSystemLayout env s uuid fsync = .fatal "Check failed: !read_only_" ∧
    createNewBlock s bm = createNewBlock s bm₂ ∧
    deleteBlock s bm blockId = deleteBlock s bm₂ blockId := by
  simp [createNewBlock, deleteBlock, createInitialFileSystemLayout, hro]

/-- Witness for C10 on a concrete read-only instance. -/
theorem c10_read_only_fatal_witness :
    createNewBlock roState constBM = .fatal "Check failed: !read_only_" ∧
    deleteBlock roState constBM "b" = .fatal "Check failed: !read_only_" ∧
    createInitialFileSystemLayout idEnv roState none true =
      .fatal "Check failed: !read_only_" := by
  have h := c10_read_only_fatal roState rfl idEnv constBM constBM "b" none true
  exact ⟨h.1, h.2.1, h.2.2.1⟩

/-! ## Identity-record verification in `Open` (C2) -/

theorem isPrefixOf_append_self : ∀ l t : List Char, l.isPrefixOf (l ++ t) = true := by
  intro l t
  induction l with
  | nil => cases t <;> rfl
  | cons c cs ih => simp [List.isPrefixOf, ih]

theorem listContains_self_append (s t : List Char) : listContains s (s ++ t) = true := by
  cases s with
  | nil =>
    cases t with
    | nil => rfl
    | cons c cs => simp [listContains]
  | cons a as =>
    simp [listContains, List.isPrefixOf, isPrefixOf_append_self]

theorem listContains_self (l : List Char) : listContains l l = true := by
  have h := listContains_self_append l []
  simpa using h

theorem listContains_append_left : ∀ pre s hay : List Char,
    listContains s hay = true → listContains s (pre ++ hay) = true := by
  intro pre
  induction pre with
  | nil => intro s hay h; exact h
  | cons p ps ih =>
    intro s hay h
    simp only [List.cons_append, listContains]
    simp [ih s hay h]

theorem mismatchMsg_contains_first (u v : String) :
    containsSubstr (mismatchMsg u v) u = true := by
  unfold mismatchMsg containsSubstr
  simp only [String.data_append, List.append_assoc]
  exact listContains_append_left _ _ _ (listContains_self_append _ _)

theorem mismatchMsg_contains_second (u v : String) :
    containsSubstr (mismatchMsg u v) v = true := by
  unfold mismatchMsg containsSubstr
  simp only [String.data_append, List.append_assoc]
  exact listContains_append_left _ _ _
    (listContains_append_left _ _ _ (listContains_append_left _ _ _ (listContains_self _)))

theorem firstMismatch_ne {env : Env} {u₀ : String} : ∀ {l : List String} {u : String},
    firstMismatch env u₀ l = some u → u ≠ u₀ := by
  intro l
  induction l with
  | nil => intro u h; exact Option.noConfusion h
  | cons x xs ih =>
    intro u h
    unfold firstMismatch at h
    by_cases hx : uuidAt env x ≠ u₀
    · rw [if_pos hx] at h
      obtain rfl := Option.some.inj h
      exact hx
    · rw [if_neg hx] at h
      exact ih h

theorem loadInstanceMetadata_firstMismatch {env : Env} (cur : InstanceMetadataPB) :
    ∀ rest : List String,
    (∀ x ∈ rest, ∃ pb, env.readInstanceFile (getInstanceMetadataPath x) = .ok pb) →
    (∀ u, firstMismatch env cur.uuid rest = some u →
      loadInstanceMetadata env rest (some cur) =
        .error (.corruption (mismatchMsg cur.uuid u))) ∧
    (firstMismatch env cur.uuid rest = none →
      loadInstanceMetadata env rest (some cur) = .ok (some cur)) := by
  intro rest
  induction rest with
  | nil => intro _; exact ⟨fun u h => Option.noConfusion h, fun _ => rfl⟩
  | cons x xs ih =>
    intro hreads
    obtain ⟨pb, hpb⟩ := hreads x (List.mem_cons_self _ _)
    have hu : uuidAt env x = pb.uuid := by simp [uuidAt, hpb]
    have ihx := ih (fun y hy => hreads y (List.mem_cons_of_mem _ hy))
    by_cases hne : pb.uuid ≠ cur.uuid
    · constructor
      · intro u hfm
        unfold firstMismatch at hfm
        rw [hu, if_pos hne] at hfm
        obtain rfl := Option.some.inj hfm
        simp [loadInstanceMetadata, hpb, hne, mismatchMsg]
      · intro hfm
        unfold firstMismatch at hfm
        rw [hu, if_pos hne] at hfm
        exact Option.noConfusion hfm
    · push_neg at hne
      have hfm_step : firstMismatch env cur.uuid (x :: xs) = firstMismatch env cur.uuid xs := by
        show (if uuidAt env x ≠ cur.uuid then some (uuidAt env x)
          else firstMismatch env cur.uuid xs) = firstMismatch env cur.uuid xs
        rw [hu, if_neg (fun hc => hc hne)]
      have hload_step : loadInstanceMetadata env (x :: xs) (some cur) =
          loadInstanceMetadata env xs (some cur) := by
        simp [loadInstanceMetadata, hpb, hne]
      rw [hfm_step, hload_step]
      exact ihx

/-- C2 — during `Open`, the first identity record read establishes the
canonical uuid; if some later canonical root's record carries a different
uuid, `Open` fails with a data-corruption error whose message is exactly the
mismatch message naming the first root's uuid and the offending uuid (both
occur in the message as substrings); with no mismatch, the record of the
first root is the established identity. Stated under the hypothesis that
every root's record reads successfully. -/
theorem c2_open_uuid_mismatch (env : Env) (r : String) (rest : List String)
    (hreads : ∀ x ∈ r :: rest, ∃ pb, env.readInstanceFile (getInstanceMetadataPath x) = .ok pb) :
    (∀ u, firstMismatch env (uuidAt env r) rest = some u →
      fsOpen env (r :: rest) = .error (.corruption (mismatchMsg (uuidAt env r) u)) ∧
      containsSubstr (mismatchMsg (uuidAt env r) u) (uuidAt env r) = true ∧
      containsSubstr (mismatchMsg (uuidAt env r) u) u = true ∧
      u ≠ uuidAt env r) ∧
    (firstMismatch env (uuidAt env r) rest = none →
      ∃ pb, env.readInstanceFile (getInstanceMetadataPath r) = .ok pb ∧
        loadInstanceMetadata env (r :: rest) none = .ok (some pb) ∧
        pb.uuid = uuidAt env r) := by
  obtain ⟨pb₀, hpb₀⟩ := hreads r (List.mem_cons_self _ _)
  have hu₀ : uuidAt env r = pb₀.uuid := by simp [uuidAt, hpb₀]
  have hload_first : loadInstanceMetadata env (r :: rest) none =
      loadInstanceMetadata env rest (some pb₀) := by
    simp [loadInstanceMetadata, hpb₀]
  have main := loadInstanceMetadata_firstMismatch pb₀ rest
    (fun y hy => hreads y (List.mem_cons_of_mem _ hy))
  constructor
  · intro u hfm
    rw [hu₀] at hfm
    have herr := main.1 u hfm
    refine ⟨?_, ?_, ?_, ?_⟩
    · rw [hu₀]
      simp [fsOpen, hload_first, herr]
    · exact mismatchMsg_contains_first _ _
    · exact mismatchMsg_contains_second _ _
    · rw [hu₀]
      exact firstMismatch_ne hfm
  · intro hfm
    rw [hu₀] at hfm
    have hok := main.2 hfm
    exact ⟨pb₀, hpb₀, by rw [hload_first, hok], hu₀.symm⟩

/-- Witness for C2: roots `/a` and `/b` holding uuids `x` and `y` make `Open`
fail with a corruption error naming both. -/
theorem c2_open_uuid_mismatch_witness :
    fsOpen envMismatch ["/a", "/b"] =
      .error (.corruption "Mismatched UUIDs across filesystem roots: x vs. y") ∧
    containsSubstr "Mismatched UUIDs across filesystem roots: x vs. y" "x" = true ∧
    containsSubstr "Mismatched UUIDs across filesystem roots: x vs. y" "y" = true := by
  have h := (c2_open_uuid_mismatch envMismatch "/a" ["/b"]
    (by
      intro x hx
      rcases List.mem_cons.mp hx with rfl | hx₂
      · exact ⟨⟨"x", "s"⟩, rfl⟩
      · rcases List.mem_cons.mp hx₂ with rfl | hx₃
        · exact ⟨⟨"y", "s"⟩, rfl⟩
        · exact absurd hx₃ (List.not_mem_nil _))).1 "y" (by decide)
  obtain ⟨h₁, h₂, h₃, _⟩ := h
  refine ⟨?_, ?_, ?_⟩
  · rw [h₁]
    decide
  · have := h₂
    revert this
    decide
  · have := h₃
    revert this
    decide

/-! ## Rollback ledger (C1) -/

theorem logAction_trace (st : CreateSt) (a : FsAction) :
    (logAction st a).trace = st.trace ++ [a] := rfl

theorem logAction_deque (st : CreateSt) (a : FsAction) :
    (logAction st a).dequeFront = st.dequeFront := rfl

theorem logAction_pushLog (st : CreateSt) (a : FsAction) :
    (logAction st a).pushLog = st.pushLog := rfl

theorem logAction_toSync (st : CreateSt) (a : FsAction) :
    (logAction st a).toSync = st.toSync := rfl

theorem pushDeleter_trace (st : CreateSt) (p : String) :
    (pushDeleter st p).trace = st.trace := rfl

theorem pushDeleter_deque (st : CreateSt) (p : String) :
    (pushDeleter st p).dequeFront = p :: st.dequeFront := rfl

theorem pushDeleter_pushLog (st : CreateSt) (p : String) :
    (pushDeleter st p).pushLog = st.pushLog ++ [p] := rfl

theorem pushDeleter_toSync (st : CreateSt) (p : String) :
    (pushDeleter st p).toSync = st.toSync := rfl

theorem insertToSync_trace (st : CreateSt) (p : String) :
    (insertToSync st p).trace = st.trace := by
  unfold insertToSync
  split <;> rfl

theorem insertToSync_deque (st : CreateSt) (p : String) :
    (insertToSync st p).dequeFront = st.dequeFront := by
  unfold insertToSync
  split <;> rfl

theorem insertToSync_pushLog (st : CreateSt) (p : String) :
    (insertToSync st p).pushLog = st.pushLog := by
  unfold insertToSync
  split <;> rfl

theorem deletesIn_append (t₁ t₂ : List FsAction) :
    deletesIn (t₁ ++ t₂) = deletesIn t₁ ++ deletesIn t₂ := by
  simp [deletesIn]

theorem syncedDirs_append (t₁ t₂ : List FsAction) :
    syncedDirs (t₁ ++ t₂) = syncedDirs t₁ ++ syncedDirs t₂ := by
  simp [syncedDirs]

theorem deletesIn_rollbackActions (l : List String) :
    deletesIn (rollbackActions l) = l := by
  induction l with
  | nil => rfl
  | cons p ps ih => simp [rollbackActions, deletesIn] at ih ⊢; exact ih

/-- The per-root step appends only create/write actions to the trace. -/
theorem createRootStep_extra (env : Env) (root : String) (st : CreateSt) :
    ∃ extra, (createRootStep env root st).2.trace = st.trace ++ extra ∧
      deletesIn extra = [] ∧ syncedDirs extra = [] := by
  unfold createRootStep
  cases hcd : env.createDirIfMissing root with
  | error e =>
    exact ⟨[.createDir root], by simp [logAction_trace], by simp [deletesIn],
      by simp [syncedDirs]⟩
  | ok created =>
    cases created <;>
      cases hw : env.writeInstanceFile (getInstanceMetadataPath root) <;>
        exact ⟨[.createDir root, .writeInstanceFile (getInstanceMetadataPath root)],
          by simp [logAction_trace, insertToSync_trace, pushDeleter_trace],
          by simp [deletesIn], by simp [syncedDirs]⟩

theorem createRootsLoop_extra (env : Env) : ∀ (roots : List String) (st : CreateSt),
    ∃ extra, (createRootsLoop env roots st).2.trace = st.trace ++ extra ∧
      deletesIn extra = [] ∧ syncedDirs extra = [] := by
  intro roots
  induction roots with
  | nil => intro st; exact ⟨[], by simp [createRootsLoop], rfl, rfl⟩
  | cons r rest ih =>
    intro st
    obtain ⟨e₁, h₁, hd₁, hs₁⟩ := createRootStep_extra env r st
    rcases hstep : createRootStep env r st with ⟨res, st₁⟩
    rw [hstep] at h₁
    cases res with
    | error err =>
      refine ⟨e₁, ?_, hd₁, hs₁⟩
      simp only [createRootsLoop, hstep]
      exact h₁
    | ok u =>
      obtain ⟨e₂, h₂, hd₂, hs₂⟩ := ih st₁
      refine ⟨e₁ ++ e₂, ?_, ?_, ?_⟩
      · simp only [createRootsLoop, hstep]
        rw [h₂, h₁, List.append_assoc]
      · rw [deletesIn_append, hd₁, hd₂, List.append_nil]
      · rw [syncedDirs_append, hs₁, hs₂, List.append_nil]

theorem ancillaryStep_extra (env : Env) (dir : String) (st : CreateSt) :
    ∃ extra, (ancillaryStep env dir st).2.trace = st.trace ++ extra ∧
      deletesIn extra = [] ∧ syncedDirs extra = [] := by
  unfold ancillaryStep
  cases hcd : env.createDirIfMissing dir with
  | error e =>
    exact ⟨[.createDir dir], by simp [logAction_trace], by simp [deletesIn],
      by simp [syncedDirs]⟩
  | ok created =>
    cases created <;>
      exact ⟨[.createDir dir],
        by simp [logAction_trace, insertToSync_trace, pushDeleter_trace],
        by simp [deletesIn], by simp [syncedDirs]⟩

theorem ancillaryLoop_extra (env : Env) : ∀ (dirs : List String) (st : CreateSt),
    ∃ extra, (ancillaryLoop env dirs st).2.trace = st.trace ++ extra ∧
      deletesIn extra = [] ∧ syncedDirs extra = [] := by
  intro dirs
  induction dirs with
  | nil => intro st; exact ⟨[], by simp [ancillaryLoop], rfl, rfl⟩
  | cons d rest ih =>
    intro st
    obtain ⟨e₁, h₁, hd₁, hs₁⟩ := ancillaryStep_extra env d st
    rcases hstep : ancillaryStep env d st with ⟨res, st₁⟩
    rw [hstep] at h₁
    cases res with
    | error err =>
      refine ⟨e₁, ?_, hd₁, hs₁⟩
      simp only [ancillaryLoop, hstep]
      exact h₁
    | ok u =>
      obtain ⟨e₂, h₂, hd₂, hs₂⟩ := ih st₁
      refine ⟨e₁ ++ e₂, ?_, ?_, ?_⟩
      · simp only [ancillaryLoop, hstep]
        rw [h₂, h₁, List.append_assoc]
      · rw [deletesIn_append, hd₁, hd₂, List.append_nil]
      · rw [syncedDirs_append, hs₁, hs₂, List.append_nil]

theorem syncLoop_extra (env : Env) : ∀ (dirs : List String) (st : CreateSt),
    ∃ extra, (syncLoop env dirs st).2.trace = st.trace ++ extra ∧
      deletesIn extra = [] := by
  intro dirs
  induction dirs with
  | nil => intro st; exact ⟨[], by simp [syncLoop], rfl⟩
  | cons d rest ih =>
    intro st
    cases hs : env.syncDir d with
    | error e =>
      refine ⟨[.syncDir d], ?_, by simp [deletesIn]⟩
      simp [syncLoop, hs, logAction_trace]
    | ok u =>
      obtain ⟨e₂, h₂, hd₂⟩ := ih (logAction st (.syncDir d))
      refine ⟨.syncDir d :: e₂, ?_, ?_⟩
      · simp only [syncLoop, hs]
        rw [h₂]
        simp [logAction_trace]
      · rw [show FsAction.syncDir d :: e₂ = [FsAction.syncDir d] ++ e₂ from rfl,
          deletesIn_append, hd₂]
        rfl

theorem createBody_extra (env : Env) (roots ancillary : List String) (uuid : Option String)
    (enableFsync : Bool) (st : CreateSt) :
    ∃ extra, (createBody env roots ancillary uuid enableFsync st).2.trace =
      st.trace ++ extra ∧ deletesIn extra = [] := by
  unfold createBody
  cases hg : checkRootsGuard env roots with
  | error e => exact ⟨[], by simp, rfl⟩
  | ok u =>
    cases hmeta : createInstanceMetadata env uuid with
    | error e => exact ⟨[], by simp, rfl⟩
    | ok pb =>
      obtain ⟨e₁, h₁, hd₁, _⟩ := createRootsLoop_extra env roots st
      rcases hr : createRootsLoop env roots st with ⟨res₁, st₁⟩
      rw [hr] at h₁
      replace h₁ : st₁.trace = st.trace ++ e₁ := h₁
      cases res₁ with
      | error err =>
        refine ⟨e₁, ?_, hd₁⟩
        simp only [hr]
        exact h₁
      | ok u₁ =>
        obtain ⟨e₂, h₂, hd₂, _⟩ := ancillaryLoop_extra env ancillary st₁
        rcases ha : ancillaryLoop env ancillary st₁ with ⟨res₂, st₂⟩
        rw [ha] at h₂
        replace h₂ : st₂.trace = st₁.trace ++ e₂ := h₂
        cases res₂ with
        | error err =>
          refine ⟨e₁ ++ e₂, ?_, by rw [deletesIn_append, hd₁, hd₂, List.append_nil]⟩
          simp only [hr, ha]
          rw [h₂, h₁, List.append_assoc]
        | ok u₂ =>
          cases enableFsync with
          | false =>
            cases hdm : env.createDataDirManager with
            | error e =>
              refine ⟨e₁ ++ (e₂ ++ [.createDataDirManager]), ?_, ?_⟩
              · simp only [hr, ha, Bool.false_eq_true, ↓reduceIte, hdm, logAction_trace]
                rw [h₂, h₁]
                simp [List.append_assoc]
              · rw [deletesIn_append, deletesIn_append, hd₁, hd₂]
                simp [deletesIn]
            | ok u₃ =>
              refine ⟨e₁ ++ (e₂ ++ [.createDataDirManager]), ?_, ?_⟩
              · simp only [hr, ha, Bool.false_eq_true, ↓reduceIte, hdm, logAction_trace]
                rw [h₂, h₁]
                simp [List.append_assoc]
              · rw [deletesIn_append, deletesIn_append, hd₁, hd₂]
                simp [deletesIn]
          | true =>
            obtain ⟨e₃, h₃, hd₃⟩ := syncLoop_extra env st₂.toSync st₂
            rcases hsy : syncLoop env st₂.toSync st₂ with ⟨res₃, st₃⟩
            rw [hsy] at h₃
            replace h₃ : st₃.trace = st₂.trace ++ e₃ := h₃
            cases res₃ with
            | error err =>
              refine ⟨e₁ ++ (e₂ ++ e₃), ?_, ?_⟩
              · simp only [hr, ha, ↓reduceIte, hsy]
                rw [h₃, h₂, h₁]
                simp [List.append_assoc]
              · rw [deletesIn_append, deletesIn_append, hd₁, hd₂, hd₃]
                simp
            | ok u₃ =>
              cases hdm : env.createDataDirManager with
              | error e =>
                refine ⟨e₁ ++ (e₂ ++ (e₃ ++ [.createDataDirManager])), ?_, ?_⟩
                · simp only [hr, ha, ↓reduceIte, hsy, hdm, logAction_trace]
                  rw [h₃, h₂, h₁]
                  simp [List.append_assoc]
                · rw [deletesIn_append, deletesIn_append, deletesIn_append, hd₁, hd₂, hd₃]
                  simp [deletesIn]
              | ok u₄ =>
                refine ⟨e₁ ++ (e₂ ++ (e₃ ++ [.createDataDirManager])), ?_, ?_⟩
                · simp only [hr, ha, ↓reduceIte, hsy, hdm, logAction_trace]
                  rw [h₃, h₂, h₁]
                  simp [List.append_assoc]
                · rw [deletesIn_append, deletesIn_append, deletesIn_append, hd₁, hd₂, hd₃]
                  simp [deletesIn]

theorem createRootStep_inv (env : Env) (root : String) {st : CreateSt}
    (h : st.dequeFront = st.pushLog.reverse) :
    (createRootStep env root st).2.dequeFront = (createRootStep env root st).2.pushLog.reverse := by
  unfold createRootStep
  cases hcd : env.createDirIfMissing root with
  | error e => simpa [logAction_deque, logAction_pushLog] using h
  | ok created =>
    cases created <;> cases hw : env.writeInstanceFile (getInstanceMetadataPath root) <;>
      simp [logAction_deque, logAction_pushLog, insertToSync_deque, insertToSync_pushLog,
        pushDeleter_deque, pushDeleter_pushLog, h, List.reverse_append]

theorem createRootsLoop_inv (env : Env) : ∀ (roots : List String) {st : CreateSt},
    st.dequeFront = st.pushLog.reverse →
    (createRootsLoop env roots st).2.dequeFront =
      (createRootsLoop env roots st).2.pushLog.reverse := by
  intro roots
  induction roots with
  | nil => intro st h; exact h
  | cons r rest ih =>
    intro st h
    have hstep := createRootStep_inv env r h
    rcases hs : createRootStep env r st with ⟨res, st₁⟩
    rw [hs] at hstep
    cases res with
    | error err => simpa only [createRootsLoop, hs] using hstep
    | ok u =>
      simp only [createRootsLoop, hs]
      exact ih hstep

theorem ancillaryStep_inv (env : Env) (dir : String) {st : CreateSt}
    (h : st.dequeFront = st.pushLog.reverse) :
    (ancillaryStep env dir st).2.dequeFront = (ancillaryStep env dir st).2.pushLog.reverse := by
  unfold ancillaryStep
  cases hcd : env.createDirIfMissing dir with
  | error e => simpa [logAction_deque, logAction_pushLog] using h
  | ok created =>
    cases created <;>
      simp [logAction_deque, logAction_pushLog, insertToSync_deque, insertToSync_pushLog,
        pushDeleter_deque, pushDeleter_pushLog, h, List.reverse_append]

theorem ancillaryLoop_inv (env : Env) : ∀ (dirs : List String) {st : CreateSt},
    st.dequeFront = st.pushLog.reverse →
    (ancillaryLoop env dirs st).2.dequeFront =
      (ancillaryLoop env dirs st).2.pushLog.reverse := by
  intro dirs
  induction dirs with
  | nil => intro st h; exact h
  | cons d rest ih =>
    intro st h
    have hstep := ancillaryStep_inv env d h
    rcases hs : ancillaryStep env d st with ⟨res, st₁⟩
    rw [hs] at hstep
    cases res with
    | error err => simpa only [ancillaryLoop, hs] using hstep
    | ok u =>
      simp only [ancillaryLoop, hs]
      exact ih hstep

theorem syncLoop_fields (env : Env) : ∀ (dirs : List String) (st : CreateSt),
    (syncLoop env dirs st).2.dequeFront = st.dequeFront ∧
    (syncLoop env dirs st).2.pushLog = st.pushLog ∧
    (syncLoop env dirs st).2.toSync = st.toSync := by
  intro dirs
  induction dirs with
  | nil => intro st; exact ⟨rfl, rfl, rfl⟩
  | cons d rest ih =>
    intro st
    cases hs : env.syncDir d with
    | error e => simp [syncLoop, hs, logAction_deque, logAction_pushLog, logAction_toSync]
    | ok u =>
      simp only [syncLoop, hs]
      obtain ⟨h₁, h₂, h₃⟩ := ih (logAction st (.syncDir d))
      exact ⟨h₁, h₂, h₃⟩

theorem createBody_inv (env : Env) (roots ancillary : List String) (uuid : Option String)
    (enableFsync : Bool) (st : CreateSt) (h : st.dequeFront = st.pushLog.reverse) :
    (createBody env roots ancillary uuid enableFsync st).2.dequeFront =
      (createBody env roots ancillary uuid enableFsync st).2.pushLog.reverse := by
  unfold createBody
  cases hg : checkRootsGuard env roots with
  | error e => exact h
  | ok u =>
    cases hmeta : createInstanceMetadata env uuid with
    | error e => exact h
    | ok pb =>
      have h₁ := createRootsLoop_inv env roots h
      rcases hr : createRootsLoop env roots st with ⟨res₁, st₁⟩
      rw [hr] at h₁
      replace h₁ : st₁.dequeFront = st₁.pushLog.reverse := h₁
      cases res₁ with
      | error err => simp only [hr]; exact h₁
      | ok u₁ =>
        have h₂ := ancillaryLoop_inv env ancillary h₁
        rcases ha : ancillaryLoop env ancillary st₁ with ⟨res₂, st₂⟩
        rw [ha] at h₂
        replace h₂ : st₂.dequeFront = st₂.pushLog.reverse := h₂
        cases res₂ with
        | error err => simp only [hr, ha]; exact h₂
        | ok u₂ =>
          cases enableFsync with
          | false =>
            cases hdm : env.createDataDirManager with
            | error e =>
              simp only [hr, ha, Bool.false_eq_true, ↓reduceIte, hdm, logAction_deque,
                logAction_pushLog]
              exact h₂
            | ok u₃ =>
              simp only [hr, ha, Bool.false_eq_true, ↓reduceIte, hdm, logAction_deque,
                logAction_pushLog]
              exact h₂
          | true =>
            obtain ⟨hf₁, hf₂, _⟩ := syncLoop_fields env st₂.toSync st₂
            rcases hsy : syncLoop env st₂.toSync st₂ with ⟨res₃, st₃⟩
            rw [hsy] at hf₁ hf₂
            replace hf₁ : st₃.dequeFront = st₂.dequeFront := hf₁
            replace hf₂ : st₃.pushLog = st₂.pushLog := hf₂
            have h₃ : st₃.dequeFront = st₃.pushLog.reverse := by rw [hf₁, hf₂]; exact h₂
            cases res₃ with
            | error err => simp only [hr, ha, ↓reduceIte, hsy]; exact h₃
            | ok u₃ =>
              cases hdm : env.createDataDirManager with
              | error e =>
                simp only [hr, ha, ↓reduceIte, hsy, hdm, logAction_deque, logAction_pushLog]
                exact h₃
              | ok u₄ =>
                simp only [hr, ha, ↓reduceIte, hsy, hdm, logAction_deque, logAction_pushLog]
                exact h₃

theorem createNonRO_init_error {env : Env} {s : FsManagerState} {uuid : Option String}
    {fsync : Bool} {e : FsError} {s₁ : FsManagerState} (h : fsInit env s = (.error e, s₁)) :
    createNonRO env s uuid fsync =
      { result := .error e, trace := [], deletionsAttempted := [], pushLog := [] } := by
  simp [createNonRO, h]

theorem createNonRO_body_ok {env : Env} {s : FsManagerState} {uuid : Option String}
    {fsync : Bool} {s₁ : FsManagerState} {st : CreateSt}
    (hi : fsInit env s = (.ok (), s₁))
    (hb : createBody env s₁.canonAll (ancillaryDirs s₁) uuid fsync CreateSt.initial =
      (.ok (), st)) :
    createNonRO env s uuid fsync =
      { result := .ok (), trace := st.trace, deletionsAttempted := [], pushLog := st.pushLog } := by
  simp [createNonRO, hi, hb]

theorem createNonRO_body_error {env : Env} {s : FsManagerState} {uuid : Option String}
    {fsync : Bool} {s₁ : FsManagerState} {st : CreateSt} {e : FsError}
    (hi : fsInit env s = (.ok (), s₁))
    (hb : createBody env s₁.canonAll (ancillaryDirs s₁) uuid fsync CreateSt.initial =
      (.error e, st)) :
    createNonRO env s uuid fsync =
      { result := .error e, trace := st.trace ++ rollbackActions st.dequeFront,
        deletionsAttempted := st.dequeFront, pushLog := st.pushLog } := by
  simp [createNonRO, hi, hb]

/-- C1 — rollback-ledger discipline of `CreateInitialFileSystemLayout`: if
the call fails, the rollback deletions attempted are exactly the ledger in
reverse-of-push order (they are the only deletions in the trace, appended
after the mutating actions, each attempted unconditionally); on success no
deletion at all is executed; and the whole outcome — returned error
included — is unchanged under any replacement of the deletion oracle, so a
failing deletion can neither mask the original error nor block the other
deletions. -/
theorem c1_rollback_ledger (env : Env) (s : FsManagerState) (uuid : Option String)
    (fsync : Bool) :
    (∀ e, (createNonRO env s uuid fsync).result = .error e →
      (createNonRO env s uuid fsync).deletionsAttempted =
        (createNonRO env s uuid fsync).pushLog.reverse ∧
      deletesIn (createNonRO env s uuid fsync).trace =
        (createNonRO env s uuid fsync).deletionsAttempted ∧
      ∃ t, (createNonRO env s uuid fsync).trace =
        t ++ rollbackActions (createNonRO env s uuid fsync).deletionsAttempted ∧
        deletesIn t = []) ∧
    ((createNonRO env s uuid fsync).result = .ok () →
      (createNonRO env s uuid fsync).deletionsAttempted = [] ∧
      deletesIn (createNonRO env s uuid fsync).trace = []) ∧
    (∀ d, createNonRO (env.withDelete d) s uuid fsync = createNonRO env s uuid fsync) := by
  have hwd : ∀ d, createNonRO (env.withDelete d) s uuid fsync =
      createNonRO env s uuid fsync := fun d =>
    @createNonRO_congr (env.withDelete d) env rfl rfl rfl rfl rfl rfl rfl rfl rfl rfl rfl
      s uuid fsync
  rcases hinit : fsInit env s with ⟨ir, s₁⟩
  cases ir with
  | error e₁ =>
    refine ⟨?_, ?_, hwd⟩
    · rw [createNonRO_init_error hinit]
      exact fun e _ => ⟨rfl, rfl, [], rfl, rfl⟩
    · rw [createNonRO_init_error hinit]
      exact fun _ => ⟨rfl, rfl⟩
  | ok u =>
    cases u
    rcases hbody : createBody env s₁.canonAll (ancillaryDirs s₁) uuid fsync CreateSt.initial
      with ⟨br, st⟩
    have hinv : st.dequeFront = st.pushLog.reverse := by
      have h := createBody_inv env s₁.canonAll (ancillaryDirs s₁) uuid fsync
        CreateSt.initial rfl
      rw [hbody] at h
      exact h
    have htr : ∃ extra, st.trace = CreateSt.initial.trace ++ extra ∧
        deletesIn extra = [] := by
      obtain ⟨extra, h₁, h₂⟩ := createBody_extra env s₁.canonAll (ancillaryDirs s₁) uuid
        fsync CreateSt.initial
      rw [hbody] at h₁
      exact ⟨extra, h₁, h₂⟩
    obtain ⟨extra, hext, hdel⟩ := htr
    have hext₂ : st.trace = extra := by simpa [CreateSt.initial] using hext
    cases br with
    | error e₂ =>
      refine ⟨?_, ?_, hwd⟩
      · rw [createNonRO_body_error hinit hbody]
        refine fun e _ => ⟨hinv, ?_, extra, ?_, hdel⟩
        · show deletesIn (st.trace ++ rollbackActions st.dequeFront) = st.dequeFront
          rw [deletesIn_append, hext₂, hdel, deletesIn_rollbackActions, List.nil_append]
        · show st.trace ++ rollbackActions st.dequeFront =
            extra ++ rollbackActions st.dequeFront
          rw [hext₂]
      · rw [createNonRO_body_error hinit hbody]
        exact fun hok => by simp at hok
    | ok u₂ =>
      cases u₂
      refine ⟨?_, ?_, hwd⟩
      · rw [createNonRO_body_ok hinit hbody]
        exact fun e he => by simp at he
      · rw [createNonRO_body_ok hinit hbody]
        refine fun _ => ⟨rfl, ?_⟩
        show deletesIn st.trace = []
        rw [hext₂, hdel]

/-- Witness for C1: a failing identity-record write after the root directory
was created rolls back exactly the pushed ledger entry, in reverse-of-push
order, and the write error (with its context prefix) is returned. -/
theorem c1_rollback_ledger_witness :
    (createNonRO envWriteFail openedState none true).deletionsAttempted =
      (createNonRO envWriteFail openedState none true).pushLog.reverse ∧
    (createNonRO envWriteFail openedState none true).result =
      .error (.ioError "Unable to write instance metadata: disk full") ∧
    (createNonRO envWriteFail openedState none true).deletionsAttempted = ["/r"] := by
  have h := (c1_rollback_ledger envWriteFail openedState none true).1
    (.ioError "Unable to write instance metadata: disk full") (by decide)
  exact ⟨h.1, by decide, by decide⟩

/-! ## Parent-directory synchronization (C7) -/

theorem createdB_eq {env : Env} {p : String} {created : Bool}
    (h : env.createDirIfMissing p = .ok created) : createdB env p = created := by
  unfold createdB
  rw [h]
  cases created <;> rfl

theorem insertToSync_toSync (st : CreateSt) (p : String) :
    (insertToSync st p).toSync = dedupApp st.toSync [p] := by
  unfold insertToSync
  by_cases h : p ∈ st.toSync <;> simp [h, dedupApp]

theorem dedupApp_append (acc : List String) : ∀ l₁ l₂ : List String,
    dedupApp acc (l₁ ++ l₂) = dedupApp (dedupApp acc l₁) l₂ := by
  intro l₁
  induction l₁ generalizing acc with
  | nil => intro l₂; rfl
  | cons x xs ih => intro l₂; simp only [List.cons_append, dedupApp]; exact ih _ l₂

theorem syncedDirs_map_sync (l : List String) :
    syncedDirs (l.map FsAction.syncDir) = l := by
  induction l with
  | nil => rfl
  | cons d rest ih => simp [syncedDirs] at ih ⊢; exact ih

theorem createRootStep_toSync (env : Env) (root : String) {st st₁ : CreateSt} {res : Unit}
    (h : createRootStep env root st = (.ok res, st₁)) :
    st₁.toSync =
      dedupApp st.toSync ((List.filter (fun p => createdB env p) [root]).map dirName) := by
  unfold createRootStep at h
  cases hcd : env.createDirIfMissing root with
  | error e =>
    simp only [hcd] at h
    rw [Prod.mk.injEq] at h
    exact absurd h.1 (by simp)
  | ok created =>
    simp only [hcd] at h
    cases hw : env.writeInstanceFile (getInstanceMetadataPath root) with
    | error e =>
      simp only [hw] at h
      rw [Prod.mk.injEq] at h
      exact absurd h.1 (by simp)
    | ok u =>
      simp only [hw] at h
      rw [Prod.mk.injEq] at h
      rw [← h.2]
      have hcb : createdB env root = created := createdB_eq hcd
      cases created with
      | true =>
        simp [pushDeleter_toSync, logAction_toSync, insertToSync_toSync, hcb,
          List.filter_cons, dedupApp]
      | false =>
        simp [pushDeleter_toSync, logAction_toSync, hcb, List.filter_cons, dedupApp]

theorem ancillaryStep_toSync (env : Env) (dir : String) {st st₁ : CreateSt} {res : Unit}
    (h : ancillaryStep env dir st = (.ok res, st₁)) :
    st₁.toSync =
      dedupApp st.toSync ((List.filter (fun p => createdB env p) [dir]).map dirName) := by
  unfold ancillaryStep at h
  cases hcd : env.createDirIfMissing dir with
  | error e =>
    simp only [hcd] at h
    rw [Prod.mk.injEq] at h
    exact absurd h.1 (by simp)
  | ok created =>
    simp only [hcd] at h
    rw [Prod.mk.injEq] at h
    rw [← h.2]
    have hcb : createdB env dir = created := createdB_eq hcd
    cases created with
    | true =>
      simp [pushDeleter_toSync, logAction_toSync, insertToSync_toSync, hcb,
        List.filter_cons, dedupApp]
    | false =>
      simp [pushDeleter_toSync, logAction_toSync, hcb, List.filter_cons, dedupApp]

theorem createRootsLoop_toSync (env : Env) : ∀ (roots : List String) {st st₁ : CreateSt},
    createRootsLoop env roots st = (.ok (), st₁) →
    st₁.toSync =
      dedupApp st.toSync ((roots.filter (fun p => createdB env p)).map dirName) := by
  intro roots
  induction roots with
  | nil =>
    intro st st₁ h
    rw [Prod.mk.injEq] at h
    rw [← h.2]
    rfl
  | cons r rest ih =>
    intro st st₁ h
    rcases hstep : createRootStep env r st with ⟨res, stm⟩
    unfold createRootsLoop at h
    simp only [hstep] at h
    cases res with
    | error err =>
      rw [Prod.mk.injEq] at h
      exact absurd h.1 (by simp)
    | ok u =>
      have hstep₂ := createRootStep_toSync env r hstep
      have hrest := ih h
      rw [hrest, hstep₂, ← dedupApp_append]
      congr 1
      by_cases hpr : createdB env r = true
      · simp [List.filter_cons, hpr]
      · simp [List.filter_cons, hpr]

theorem ancillaryLoop_toSync (env : Env) : ∀ (dirs : List String) {st st₁ : CreateSt},
    ancillaryLoop env dirs st = (.ok (), st₁) →
    st₁.toSync =
      dedupApp st.toSync ((dirs.filter (fun p => createdB env p)).map dirName) := by
  intro dirs
  induction dirs with
  | nil =>
    intro st st₁ h
    rw [Prod.mk.injEq] at h
    rw [← h.2]
    rfl
  | cons d rest ih =>
    intro st st₁ h
    rcases hstep : ancillaryStep env d st with ⟨res, stm⟩
    unfold ancillaryLoop at h
    simp only [hstep] at h
    cases res with
    | error err =>
      rw [Prod.mk.injEq] at h
      exact absurd h.1 (by simp)
    | ok u =>
      have hstep₂ := ancillaryStep_toSync env d hstep
      have hrest := ih h
      rw [hrest, hstep₂, ← dedupApp_append]
      congr 1
      by_cases hpr : createdB env d = true
      · simp [List.filter_cons, hpr]
      · simp [List.filter_cons, hpr]

theorem syncLoop_ok_trace (env : Env) : ∀ (dirs : List String) (st : CreateSt)
    {st₃ : CreateSt}, syncLoop env dirs st = (.ok (), st₃) →
    st₃.trace = st.trace ++ dirs.map FsAction.syncDir := by
  intro dirs
  induction dirs with
  | nil =>
    intro st st₃ h
    unfold syncLoop at h
    rw [Prod.mk.injEq] at h
    rw [← h.2]
    simp
  | cons d rest ih =>
    intro st st₃ h
    unfold syncLoop at h
    cases hs : env.syncDir d with
    | error e =>
      simp only [hs] at h
      rw [Prod.mk.injEq] at h
      exact absurd h.1 (by simp)
    | ok u =>
      simp only [hs] at h
      have := ih (logAction st (.syncDir d)) h
      rw [this, logAction_trace]
      simp

/-- Counterexample to C7 as stated: with durable-sync enabled and three
pre-existing empty roots `/w`, `/d1`, `/d2` (data roots `/d1`, `/d2`), the
identity record `/d2/instance` is written, yet its parent `/d2` is never
synchronized — the call succeeds having synchronized only `/w` and `/d1`,
the parents of the newly created ancillary directories. The claim's sync set
("the parents of … every written identity-record file") is therefore not
what the code synchronizes. -/
theorem c7_sync_parents_counterexample :
    (createNonRO idEnv (mkFsManager false "/w" ["/d1", "/d2"]) none true).result = .ok () ∧
    FsAction.writeInstanceFile "/d2/instance" ∈
      (createNonRO idEnv (mkFsManager false "/w" ["/d1", "/d2"]) none true).trace ∧
    dirName "/d2/instance" = "/d2" ∧
    FsAction.syncDir "/d2" ∉
      (createNonRO idEnv (mkFsManager false "/w" ["/d1", "/d2"]) none true).trace ∧
    syncedDirs (createNonRO idEnv (mkFsManager false "/w" ["/d1", "/d2"]) none true).trace =
      ["/w", "/d1"] :=
  ⟨by decide, by decide, by decide, by decide, by decide⟩

/-- C7 (amended) — when durable-sync is enabled and the call succeeds, the
directories synchronized are exactly the deduplicated parent directories of
the directories newly created in the root-creation and ancillary steps (in
creation order); parents of written identity-record files are not
independently added. All synchronization happens before the
data-directory-manager construction, which is the final action of the
trace. -/
theorem c7_sync_created_dirs (env : Env) (s : FsManagerState) (uuid : Option String)
    (hok : (createNonRO env s uuid true).result = .ok ()) :
    syncedDirs (createNonRO env s uuid true).trace =
      dedupApp [] ((((fsInit env s).2.canonAll ++ ancillaryDirs (fsInit env s).2).filter
        (fun p => createdB env p)).map dirName) ∧
    ∃ t, (createNonRO env s uuid true).trace = t ++ [FsAction.createDataDirManager] := by
  rcases hinit : fsInit env s with ⟨ir, s₁⟩
  cases ir with
  | error e =>
    rw [createNonRO_init_error hinit] at hok
    exact absurd hok (by simp)
  | ok u =>
    cases u
    rcases hbody : createBody env s₁.canonAll (ancillaryDirs s₁) uuid true CreateSt.initial
      with ⟨br, st⟩
    cases br with
    | error e =>
      rw [createNonRO_body_error hinit hbody] at hok
      exact absurd hok (by simp)
    | ok u₂ =>
      cases u₂
      rw [createNonRO_body_ok hinit hbody]
      simp only [hinit]
      unfold createBody at hbody
      cases hg : checkRootsGuard env s₁.canonAll with
      | error e =>
        simp only [hg] at hbody
        rw [Prod.mk.injEq] at hbody
        exact absurd hbody.1 (by simp)
      | ok u₃ =>
        simp only [hg] at hbody
        cases hmeta : createInstanceMetadata env uuid with
        | error e =>
          simp only [hmeta] at hbody
          rw [Prod.mk.injEq] at hbody
          exact absurd hbody.1 (by simp)
        | ok pb =>
          simp only [hmeta] at hbody
          rcases hr : createRootsLoop env s₁.canonAll CreateSt.initial with ⟨res₁, st₁⟩
          simp only [hr] at hbody
          cases res₁ with
          | error err =>
            rw [Prod.mk.injEq] at hbody
            exact absurd hbody.1 (by simp)
          | ok u₄ =>
            cases u₄
            rcases ha : ancillaryLoop env (ancillaryDirs s₁) st₁ with ⟨res₂, st₂⟩
            simp only [ha] at hbody
            cases res₂ with
            | error err =>
              rw [Prod.mk.injEq] at hbody
              exact absurd hbody.1 (by simp)
            | ok u₅ =>
              cases u₅
              rcases hsy : syncLoop env st₂.toSync st₂ with ⟨res₃, st₃⟩
              simp only [↓reduceIte, hsy] at hbody
              cases res₃ with
              | error err =>
                rw [Prod.mk.injEq] at hbody
                exact absurd hbody.1 (by simp)
              | ok u₆ =>
                cases u₆
                cases hdm : env.createDataDirManager with
                | error e =>
                  simp only [hdm] at hbody
                  rw [Prod.mk.injEq] at hbody
                  exact absurd hbody.1 (by simp)
                | ok u₇ =>
                  simp only [hdm] at hbody
                  rw [Prod.mk.injEq] at hbody
                  have hst : st = logAction st₃ .createDataDirManager := hbody.2.symm
                  obtain ⟨e₁, he₁, _, hs₁⟩ :=
                    createRootsLoop_extra env s₁.canonAll CreateSt.initial
                  rw [hr] at he₁
                  replace he₁ : st₁.trace = CreateSt.initial.trace ++ e₁ := he₁
                  obtain ⟨e₂, he₂, _, hs₂⟩ :=
                    ancillaryLoop_extra env (ancillaryDirs s₁) st₁
                  rw [ha] at he₂
                  replace he₂ : st₂.trace = st₁.trace ++ e₂ := he₂
                  have htoSync₁ := createRootsLoop_toSync env s₁.canonAll hr
                  have htoSync₂ := ancillaryLoop_toSync env (ancillaryDirs s₁) ha
                  have htr₃ := syncLoop_ok_trace env st₂.toSync st₂ hsy
                  constructor
                  · rw [hst, logAction_trace, syncedDirs_append]
                    rw [show syncedDirs [FsAction.createDataDirManager] = [] from rfl,
                      List.append_nil]
                    rw [htr₃, syncedDirs_append, syncedDirs_map_sync]
                    have hsync₂ : syncedDirs st₂.trace = [] := by
                      rw [he₂, syncedDirs_append, hs₂, List.append_nil, he₁,
                        syncedDirs_append, hs₁, List.append_nil]
                      rfl
                    rw [hsync₂, List.nil_append]
                    rw [htoSync₂, htoSync₁, ← dedupApp_append]
                    congr 1
                    rw [List.filter_append, List.map_append]
                  · exact ⟨st₃.trace, by rw [hst, logAction_trace]⟩

/-- Witness for C7 (amended): in the counterexample scenario the synchronized
set is exactly the deduplicated parents of the created ancillary directories. -/
theorem c7_sync_created_dirs_witness :
    (createNonRO idEnv (mkFsManager false "/w" ["/d1", "/d2"]) none true).result = .ok () ∧
    syncedDirs (createNonRO idEnv (mkFsManager false "/w" ["/d1", "/d2"]) none true).trace =
      ["/w", "/d1"] := by
  have h := c7_sync_created_dirs idEnv (mkFsManager false "/w" ["/d1", "/d2"]) none
    (by decide)
  exact ⟨by decide, by rw [h.1]; decide⟩

end KuduFs
